import Mathlib

/-!
Verification development for the hedgedoc-nb nodeBook subsystem.

Shallow embedding of:
* the CNL operation emitter `getOperationsFromCnl` and the graph assembler
  `operationsToGraph` (frontend nodebook-parser),
* the Petri-net execution engine of the `NodeBookGraph` component
  (`isTransitionEnabled`, `fireTransition`, marking initialization),
* the ledger pipeline `parseLedger` / `computeLedger`.

JavaScript strings are modelled as `List Char`; JavaScript numbers that the
embedded code produces from decimal literals are modelled as `Rat`; the
insertion-ordered JavaScript `Map` is modelled as an association list with
update-in-place `set` semantics.  Each definition mirrors one function of the
source; regular-expression matches are translated into explicit character
scanners with the same backtracking behaviour on the relevant inputs.
-/

namespace JsStr

/-- JavaScript whitespace class `\s` restricted to the ASCII range. -/
def isWs (c : Char) : Bool :=
  c = ' ' || c = '\t' || c = '\n' || c = '\r' || c = '\x0b' || c = '\x0c'

/-- Drop leading JavaScript whitespace. -/
def trimL (l : List Char) : List Char := l.dropWhile isWs

/-- Drop trailing JavaScript whitespace. -/
def trimR (l : List Char) : List Char := (trimL l.reverse).reverse

/-- JavaScript `String.prototype.trim`. -/
def trim (l : List Char) : List Char := trimR (trimL l)

/-- JavaScript `split(c)`: split on every occurrence of one separator char. -/
def splitOnChar (sep : Char) : List Char → List (List Char)
  | [] => [[]]
  | c :: rest =>
      let groups := splitOnChar sep rest
      if c = sep then [] :: groups
      else
        match groups with
        | [] => [[c]]
        | g :: gs => (c :: g) :: gs

/-- Join a list of lines with `\n` (JavaScript `Array.prototype.join`). -/
def joinLines : List (List Char) → List Char
  | [] => []
  | [l] => l
  | l :: rest => l ++ '\n' :: joinLines rest

/-- ASCII lower-casing, as `String.prototype.toLowerCase` acts on ASCII. -/
def lowerL (l : List Char) : List Char := l.map Char.toLower

/-- Whether a character survives the `[^a-z0-9\s-]` deletion applied to
already lower-cased names. -/
def isIdKeep (c : Char) : Bool :=
  (('a' ≤ c && c ≤ 'z') || ('0' ≤ c && c ≤ '9') || isWs c || c = '-')

/-- Helper of `wsRunsToUnderscore`: the flag records whether the previous
character was whitespace (its underscore is already emitted). -/
def wsRunsToUnderscoreAux (prevWs : Bool) : List Char → List Char
  | [] => []
  | c :: rest =>
      if isWs c then
        if prevWs then wsRunsToUnderscoreAux true rest
        else '_' :: wsRunsToUnderscoreAux true rest
      else c :: wsRunsToUnderscoreAux false rest

/-- Collapse every whitespace run to a single underscore
(JavaScript `replace(/\s+/g, '_')`). -/
def wsRunsToUnderscore (l : List Char) : List Char :=
  wsRunsToUnderscoreAux false l

/-- Helper of `splitWsRuns`: the flag records whether the head field of the
accumulator is still adjacent to the current position. -/
def splitWsRunsAux : List Char → List (List Char) × Bool
  | [] => ([], false)
  | c :: rest =>
      let (fs, openField) := splitWsRunsAux rest
      if isWs c then (fs, false)
      else
        if openField then
          match fs with
          | f :: more => ((c :: f) :: more, true)
          | [] => ([[c]], true)
        else ([c] :: fs, true)

/-- Split into whitespace-separated fields: `split(/\s+/)` applied to a
trimmed string (the only way the source uses it), so no empty fields arise. -/
def splitWsRuns (l : List Char) : List (List Char) :=
  (splitWsRunsAux l).1

/-- First occurrence split: `findSplit pat l = some (before, after)` when `pat`
occurs in `l`, with `l = before ++ pat ++ after` at the first occurrence. -/
def findSplit (pat : List Char) : List Char → Option (List Char × List Char)
  | [] => if pat = [] then some ([], []) else none
  | c :: rest =>
      if pat.isPrefixOf (c :: rest) then some ([], (c :: rest).drop pat.length)
      else
        match findSplit pat rest with
        | some (b, a) => some (c :: b, a)
        | none => none

/-- Digit test `\d`. -/
def isDigit (c : Char) : Bool := '0' ≤ c && c ≤ '9'

end JsStr

namespace JsNum

/-- Value of one decimal digit. -/
def digitVal (c : Char) : Nat := c.toNat - '0'.toNat

/-- Value of a list of decimal digits (most significant first). -/
def digitsVal : List Char → Nat
  | [] => 0
  | c :: rest => digitsVal rest + digitVal c * 10 ^ rest.length

/-- Rational value of an integer part together with fractional digits,
exactly as the decimal literal denotes (`parseFloat` is exact on the short
decimal strings this code ever produces). -/
def decimalVal (intPart fracPart : List Char) : Rat :=
  (digitsVal intPart : Rat) + (digitsVal fracPart : Rat) / (10 ^ fracPart.length : Nat)

/-- JavaScript `parseFloat` restricted to an optional sign followed by a
decimal number; returns `none` where `parseFloat` returns `NaN`.  The numeric
prefix is maximal, trailing garbage is ignored, matching `parseFloat`. -/
def jsParseFloat (l : List Char) : Option Rat :=
  let (sign, rest) :=
    match l with
    | '-' :: r => ((-1 : Rat), r)
    | '+' :: r => ((1 : Rat), r)
    | r => ((1 : Rat), r)
  let intPart := rest.takeWhile JsStr.isDigit
  let rest2 := rest.dropWhile JsStr.isDigit
  let (fracPart, _) :=
    match rest2 with
    | '.' :: r => (r.takeWhile JsStr.isDigit, r.dropWhile JsStr.isDigit)
    | _ => ([], rest2)
  if intPart.isEmpty && fracPart.isEmpty then none
  else some (sign * decimalVal intPart fracPart)

/-- Fuelled digit expansion; the fuel in `natToChars` always suffices. -/
def natToCharsAux : Nat → Nat → List Char
  | 0, _ => []
  | fuel + 1, n =>
      if n < 10 then [Char.ofNat (n + '0'.toNat)]
      else natToCharsAux fuel (n / 10) ++ [Char.ofNat (n % 10 + '0'.toNat)]

/-- Decimal digits of a natural number, for interpolating counters into ids. -/
def natToChars (n : Nat) : List Char :=
  natToCharsAux (n + 1) n

end JsNum

namespace Fnv

/-- One step of the browser-compatible FNV-1a hash: xor in a UTF-16 code unit
then multiply by the FNV prime with `Math.imul` 32-bit wrap-around. -/
def step (h : Nat) (c : Char) : Nat :=
  ((h ^^^ c.toNat) * 0x01000193) % 2 ^ 32

/-- The hash accumulator after the whole string. -/
def acc (l : List Char) : Nat := l.foldl step 0x811c9dc5

/-- Lower-case hex digit. -/
def hexDigit (n : Nat) : Char :=
  if n < 10 then Char.ofNat (n + '0'.toNat) else Char.ofNat (n - 10 + 'a'.toNat)

/-- `fnv1aHash` of the source: 32-bit FNV-1a, eight hex digits zero-padded,
truncated to the first six. -/
def fnv1aHash (l : List Char) : List Char :=
  let h := acc l
  ([7, 6, 5, 4, 3, 2, 1, 0].map (fun i => hexDigit (h / 16 ^ i % 16))).take 6

end Fnv

/-! ## Operation stream (`CnlOperation` of nodebook-parser/types) -/

/-- One parsed CNL operation.  Payload fields mirror the dynamic payload
records of the source; absent record fields are `none`.  `fromMindmap` models
the `source: 'mindmap'` tag that only the mindmap sub-grammar attaches. -/
inductive CnlOp where
  | addNode (opId baseName displayName : String) (payloadRole : Option String)
      (optId : Option String) (optRole : Option String) (parentTypes : Option (List String))
      (adjective : Option String) (quantifier : Option String) (fromMindmap : Bool)
  | addMorph (opId nodeId morphId morphName : String)
  | addRelation (opId source target name : String) (weight : Option Rat)
      (morphId : Option String) (fromMindmap : Bool)
  | addAttribute (opId source name value : String)
      (unit quantifier adverb modality : Option String) (morphId : Option String)
  | applyFunction (opId source name : String)
  | updateNode (opId nodeId description : String)
  | updateGraphDescription (opId description : String)
  | setCurrency (opId currency : String)
deriving DecidableEq, Repr

/-- The `op.source === 'mindmap'` test used by the graph-mode detection. -/
def CnlOp.isFromMindmap : CnlOp → Bool
  | .addNode _ _ _ _ _ _ _ _ _ m => m
  | .addRelation _ _ _ _ _ _ m => m
  | _ => false

namespace CnlParse

open JsStr

/-- `cleanName` of cnl-parser: trim, lower-case, delete `[^a-z0-9\s-]`,
then turn every whitespace run into one underscore. -/
def cleanName (l : List Char) : List Char :=
  wsRunsToUnderscore ((lowerL (trim l)).filter isIdKeep)

/-- The lighter cleaning `name.trim().toLowerCase().replace(/\s+/g, '_')`
used for attribute, function and relation-id fragments (no
character deletion). -/
def cleanKeepChars (l : List Char) : List Char :=
  wsRunsToUnderscore (lowerL (trim l))

/-- Match `(?:\s*\[(.+?)\])?$` against the part of a heading after the lazily
matched name: either nothing is left, or after optional whitespace the rest is
`[inner]` with `]` the final character and `inner` non-empty (the lazy inner
group together with the end anchor selects exactly this decomposition). -/
def bracketTail (l : List Char) : Option (Option (List Char)) :=
  if l = [] then some none
  else
    match trimL l with
    | '[' :: rest =>
        if h : rest ≠ [] then
          if rest.getLast h = ']' ∧ rest.dropLast ≠ [] then some (some rest.dropLast) else none
        else none
    | _ => none

/-- The lazy `(.+?)(?:\s*\[(.+?)\])?$` tail of `HEADING_REGEX`: the shortest
non-empty name prefix whose remainder is empty or a final `[Type]` group. -/
def nameTypeSplit : List Char → Option (List Char × Option (List Char))
  | [] => none
  | c :: rest =>
      match bracketTail rest with
      | some ty => some ([c], ty)
      | none =>
          match nameTypeSplit rest with
          | some (nm, ty) => some (c :: nm, ty)
          | none => none

/-- Match `\*([^*]+)\*\s+` at the start (the optional quantifier group of
`HEADING_REGEX`), returning the captured group and the rest. -/
def starGroupWs (l : List Char) : Option (List Char × List Char) :=
  match l with
  | '*' :: rest =>
      let content := rest.takeWhile (fun c => c ≠ '*')
      let rest2 := rest.dropWhile (fun c => c ≠ '*')
      match rest2 with
      | '*' :: rest3 =>
          if content ≠ [] ∧ rest3.takeWhile isWs ≠ [] then
            some (content, rest3.dropWhile isWs)
          else none
      | _ => none
  | _ => none

/-- Match `\*\*(.+?)\*\*\s*` at the start (the optional adjective group of
`HEADING_REGEX`): the lazy content runs to the first later `**`. -/
def doubleStarGroup (l : List Char) : Option (List Char × List Char) :=
  match l with
  | '*' :: '*' :: rest =>
      match findSplit ['*', '*'] rest with
      | some (content, after) =>
          if content ≠ [] then some (content, after.dropWhile isWs) else none
      | none => none
  | _ => none

/-- Result of matching a node heading. -/
structure HeadingMatch where
  quantifier : Option (List Char)
  adjective : Option (List Char)
  baseName : List Char
  nodeType : Option (List Char)
deriving DecidableEq, Repr

/-- `HEADING_REGEX` after the `(#+)` hashes: optional `*quant*`, optional
`**adj**`, then the lazy name / optional `[Type]` tail.  Optional groups
backtrack to unused when the remainder fails, as the regex engine does. -/
def headingAfterHashes (l : List Char) : Option HeadingMatch :=
  let tailMatch : Option (List Char) → Option (List Char) → List Char → Option HeadingMatch :=
    fun q a rest =>
      match nameTypeSplit rest with
      | some (nm, ty) => some ⟨q, a, nm, ty⟩
      | none => none
  let withAdj : Option (List Char) → List Char → Option HeadingMatch := fun q rest =>
    match doubleStarGroup rest with
    | some (adj, rest2) =>
        match tailMatch q (some adj) rest2 with
        | some m => some m
        | none => tailMatch q none rest
    | none => tailMatch q none rest
  match starGroupWs l with
  | some (quant, rest) =>
      match withAdj (some quant) rest with
      | some m => some m
      | none => withAdj none l
  | none => withAdj none l

/-- `processNodeHeading` result: node id, role and the addNode payload data. -/
structure HeadingInfo where
  id : List Char
  nodeType : List Char
  baseName : List Char
  displayName : List Char
  adjective : Option (List Char)
  quantifier : Option (List Char)
deriving DecidableEq, Repr

/-- Search `/\[(.+?)\]/` anywhere in the name (the fallback type extraction
of `processNodeHeading`): first `[` that has a later `]`, lazy content to the
first such `]`, content non-empty. -/
def innerBracket : List Char → Option (List Char × List Char × List Char)
  | [] => none
  | '[' :: rest =>
      match findSplit [']'] rest with
      | some (content, after) =>
          if content ≠ [] then some ([], content, after)
          else
            match innerBracket rest with
            | some (b, c2, a) => some ('[' :: b, c2, a)
            | none => none
      | none =>
          match innerBracket rest with
          | some (b, c2, a) => some ('[' :: b, c2, a)
          | none => none
  | c :: rest =>
      match innerBracket rest with
      | some (b, c2, a) => some (c :: b, c2, a)
      | none => none

/-- `processNodeHeading` of cnl-parser (the authoritative second revision,
with the quantifier group). -/
def processNodeHeading (heading : List Char) : HeadingInfo :=
  let afterHash := fun (l : List Char) => (trimL l).dropWhile (fun c => c = '#')
  let core : Option HeadingMatch :=
    let l1 := trimL heading
    let hashes := l1.takeWhile (fun c => c = '#')
    if hashes = [] then none
    else headingAfterHashes (trimL (l1.dropWhile (fun c => c = '#')))
  -- SIMPLE_HEADING_REGEX fallback: `^\s*(#+)\s*(.+?)$` captures the rest.
  let simple : Option (List Char) :=
    let l1 := trimL heading
    let hashes := l1.takeWhile (fun c => c = '#')
    if hashes = [] then none
    else
      let rest := trimL (l1.dropWhile (fun c => c = '#'))
      if rest = [] then none else some rest
  let (quantifier, adjective, baseName0, nodeType0) :=
    match core with
    | some m => (m.quantifier, m.adjective, m.baseName, m.nodeType)
    | none =>
        match simple with
        | some rest => (none, none, trim rest, none)
        | none => (none, none, trim (afterHash heading), none)
  let displayName0 :=
    match adjective with
    | some adj => '*' :: '*' :: adj ++ '*' :: '*' :: ' ' :: baseName0
    | none => baseName0
  let (nodeType, baseName, displayName) :=
    match nodeType0 with
    | some t => (trim t, baseName0, displayName0)
    | none =>
        match innerBracket baseName0 with
        | some (b, content, a) =>
            -- baseName.replace(/\[.+?\]/, '') removes the matched span.
            (trim content, trim (b ++ a),
              match innerBracket displayName0 with
              | some (db, _, da) => trim (db ++ da)
              | none => displayName0)
        | none => (['i','n','d','i','v','i','d','u','a','l'], baseName0, displayName0)
  let cleanBase := cleanName baseName
  let id :=
    match adjective with
    | some adj => cleanName adj ++ '_' :: cleanBase
    | none => cleanBase
  ⟨id, nodeType, trim baseName, trim displayName,
    adjective.map trim, quantifier.map trim⟩

end CnlParse

namespace CnlParse

open JsStr JsNum Fnv

/-! ### Attribute value decoration scanners

`processNeighborhood` strips, in order, a `*unit*` span, a second `*...*`
span re-read as quantifier, a `++adverb++` span and a `[modality]` span from
the attribute value, each being the first match of the corresponding regex
and each removed from the value by `replace(pattern, '')`. -/

/-- First match of `/\*([^*]+)\*/`: the first adjacent pair of `*`s with a
non-empty gap; returns (before, content, after). -/
def starSpan : List Char → Option (List Char × List Char × List Char)
  | [] => none
  | '*' :: rest =>
      let content := rest.takeWhile (fun c => c ≠ '*')
      match rest.dropWhile (fun c => c ≠ '*') with
      | '*' :: after =>
          if content ≠ [] then some ([], content, after)
          else
            match starSpan rest with
            | some (b, c2, a) => some ('*' :: b, c2, a)
            | none => none
      | _ => none
  | c :: rest =>
      match starSpan rest with
      | some (b, c2, a) => some (c :: b, c2, a)
      | none => none

/-- First match of `/\+\+([^+]+)\+\+/`: `++`, a non-empty run free of `+`,
then `++` again. -/
def plusMatchAt (l : List Char) : Option (List Char × List Char) :=
  match l with
  | '+' :: '+' :: rest =>
      let content := rest.takeWhile (fun c => c ≠ '+')
      let after := rest.dropWhile (fun c => c ≠ '+')
      if content ≠ [] ∧ ['+', '+'].isPrefixOf after then some (content, after.drop 2)
      else none
  | _ => none

/-- First match of the adverb span regex, scanning positions left to
right. -/
def plusSpan : List Char → Option (List Char × List Char × List Char)
  | [] => none
  | c :: rest =>
      match plusMatchAt (c :: rest) with
      | some (content, after) => some ([], content, after)
      | none =>
          match plusSpan rest with
          | some (b, c2, a) => some (c :: b, c2, a)
          | none => none

/-- First match of `/\[([^\]]+)\]/`: first `[` with a non-empty gap to the
next `]`. -/
def squareSpan : List Char → Option (List Char × List Char × List Char)
  | [] => none
  | '[' :: rest =>
      let content := rest.takeWhile (fun c => c ≠ ']')
      match rest.dropWhile (fun c => c ≠ ']') with
      | ']' :: after =>
          if content ≠ [] then some ([], content, after)
          else
            match squareSpan rest with
            | some (b, c2, a) => some ('[' :: b, c2, a)
            | none => none
      | _ => none
  | c :: rest =>
      match squareSpan rest with
      | some (b, c2, a) => some (c :: b, c2, a)
      | none => none

/-- Strip one decoration span: returns the span content and the value with
the span removed (`value.replace(pat, '').trim()`), or `none` unchanged. -/
def stripSpan (scan : List Char → Option (List Char × List Char × List Char))
    (value : List Char) : Option (List Char) × List Char :=
  match scan value with
  | some (b, content, a) => (some (trim content), trim (b ++ a))
  | none => (none, value)

/-- The extracted decorations and final value of one attribute line. -/
structure AttrValue where
  value : List Char
  unit : Option (List Char)
  quantifier : Option (List Char)
  adverb : Option (List Char)
  modality : Option (List Char)
deriving DecidableEq, Repr

/-- The unit / quantifier / adverb / modality extraction chain applied to the
trimmed raw value. -/
def extractAttrValue (raw : List Char) : AttrValue :=
  let v0 := trim raw
  let (unit, v1) := stripSpan starSpan v0
  let (quant, v2) := stripSpan starSpan v1
  let (adverb, v3) := stripSpan plusSpan v2
  let (modality, v4) := stripSpan squareSpan v3
  ⟨trim v4, unit, quant, adverb, modality⟩

/-- Convert a possibly captured group to the payload field: the payload only
keeps it when the trimmed capture is truthy, i.e. non-empty. -/
def toField (o : Option (List Char)) : Option String :=
  match o with
  | some l => if l = [] then none else some (String.mk l)
  | none => none

/-! ### Line matchers of `processNeighborhood` -/

/-- Whether a line passes the attribute filter: contains `:` when trimmed,
does not start with `<`, and is not a `has function "` line. -/
def isFunctionDecl (line : List Char) : Bool :=
  -- `/^\s*has\s+function\s+"/`
  match trimL line with
  | 'h' :: 'a' :: 's' :: rest =>
      (rest.takeWhile isWs ≠ []) &&
        (match trimL rest with
         | 'f' :: 'u' :: 'n' :: 'c' :: 't' :: 'i' :: 'o' :: 'n' :: rest2 =>
             (rest2.takeWhile isWs ≠ []) && (match trimL rest2 with
               | '"' :: _ => true
               | _ => false)
         | _ => false)
  | _ => false

/-- The attribute-line filter of `processNeighborhood`. -/
def isAttrLine (line : List Char) : Bool :=
  let t := trim line
  t.contains ':' && !(['<'].isPrefixOf t) && !(isFunctionDecl line)

/-- Match `/^\s*(?:has\s+)?([^:<]+):\s*([^;]+);?/`: name up to the first `:`
(failing on an earlier `<` or a missing colon), optional leading `has `
keyword, value up to the first `;` or end of line.  The `\s*`/`[^;]+`
interplay makes the match succeed exactly when the region after the colon is
non-empty; the captured value trims to the region trimmed either way. -/
def attrLineMatch (line : List Char) : Option (List Char × List Char) :=
  let noHas := trimL line
  let afterHas :=
    match noHas with
    | 'h' :: 'a' :: 's' :: rest =>
        if rest.takeWhile isWs ≠ [] then
          -- the `has` branch succeeds when a name span and colon follow
          let cand := trimL rest
          let nm := cand.takeWhile (fun c => c ≠ ':' ∧ c ≠ '<')
          match cand.drop nm.length with
          | ':' :: _ =>
              if nm ≠ [] then some cand
              else
                -- `\s+` backtracks, leaving one space in the name capture
                match cand with
                | ':' :: _ => some (' ' :: cand)
                | _ => none
          | _ => none
        else none
    | _ => none
  let body :=
    match afterHas with
    | some cand => some cand
    | none => some noHas
  match body with
  | some cand =>
      let nm := cand.takeWhile (fun c => c ≠ ':' ∧ c ≠ '<')
      match cand.drop nm.length with
      | ':' :: valRegion =>
          if nm = [] then none
          else
            let value := valRegion.takeWhile (fun c => c ≠ ';')
            if value = [] then none else some (nm, value)
      | _ => none
  | none => none

/-- Match `FUNCTION_REGEX` `/^\s*has\s+function\s+"([^"]+)"\s*;/` on a line,
returning the quoted name. -/
def functionLineMatch (line : List Char) : Option (List Char) :=
  match trimL line with
  | 'h' :: 'a' :: 's' :: rest =>
      if rest.takeWhile isWs = [] then none
      else
        match trimL rest with
        | 'f' :: 'u' :: 'n' :: 'c' :: 't' :: 'i' :: 'o' :: 'n' :: rest2 =>
            if rest2.takeWhile isWs = [] then none
            else
              match trimL rest2 with
              | '"' :: rest3 =>
                  let nm := rest3.takeWhile (fun c => c ≠ '"')
                  match rest3.drop nm.length with
                  | '"' :: rest4 =>
                      if nm = [] then none
                      else match trimL rest4 with
                        | ';' :: _ => some nm
                        | _ => none
                  | _ => none
              | _ => none
        | _ => none
  | _ => none

/-- Match `RELATION_REGEX` `/^\s*<(.+?)>\s*([^;\n]*?)(?:;|$)/` on one line:
relation name up to the first `>`, then the targets capture runs lazily to
the first `;` (or the end of the line), so it never crosses a semicolon. -/
def relationLineMatch (line : List Char) : Option (List Char × List Char) :=
  match trimL line with
  | '<' :: rest =>
      let nm := rest.takeWhile (fun c => c ≠ '>')
      match rest.drop nm.length with
      | '>' :: rest2 =>
          if nm = [] then none
          else
            let afterWs := trimL rest2
            some (nm, afterWs.takeWhile (fun c => c ≠ ';'))
      | _ => none
  | _ => none

/-- Match `/^(\d+(?:\.\d{1,2})?)\s+(.+)$/` against one relation target:
an optional leading weight token.  The fractional part takes two digits,
then one, then none, the first alternative followed by whitespace and a
non-empty remainder winning, exactly as the greedy group backtracks. -/
def weightTargetMatch (raw : List Char) : Option (Rat × List Char) :=
  let intPart := raw.takeWhile isDigit
  if intPart = [] then none
  else
    let rest := raw.drop intPart.length
    let tryTail : List Char → List Char → Option (Rat × List Char) := fun fracPart tail =>
      let ws := tail.takeWhile isWs
      let tgt := tail.drop ws.length
      if ws ≠ [] ∧ tgt ≠ [] then some (decimalVal intPart fracPart, tgt)
      else if ws.length ≥ 2 ∧ tgt = [] then
        -- `\s+` backtracks, leaving its final whitespace char to `(.+)`
        some (decimalVal intPart fracPart, tail.drop (tail.length - 1))
      else none
    match rest with
    | '.' :: frest =>
        let digits := frest.takeWhile isDigit
        let after := fun (k : Nat) => frest.drop k
        (if digits.length ≥ 2 then tryTail (digits.take 2) (after 2) else none) |>.orElse
          (fun _ => (if digits.length ≥ 1 then tryTail (digits.take 1) (after 1) else none) |>.orElse
            (fun _ => tryTail [] rest))
    | _ => tryTail [] rest

/-- Match the unanchored `/\*\*?([^*]+)\*\*?\s+(.+)/` of the target adjective
extraction: at the first `*`, an optional second `*`, a non-empty star-free
capture, a closing `*` with optional second `*`, whitespace, and a non-empty
remainder. -/
def targetAdjMatch : List Char → Option (List Char × List Char)
  | [] => none
  | '*' :: rest =>
      let afterOpen := match rest with
        | '*' :: r => r
        | r => r
      let content := afterOpen.takeWhile (fun c => c ≠ '*')
      let closing := afterOpen.drop content.length
      let tryClose : List Char → Option (List Char × List Char) := fun afterClose =>
        let ws := afterClose.takeWhile isWs
        let tail := afterClose.drop ws.length
        if content ≠ [] ∧ ws ≠ [] ∧ tail ≠ [] then some (content, tail) else none
      (match closing with
       | '*' :: '*' :: r2 => (tryClose r2).orElse (fun _ => tryClose ('*' :: r2))
       | '*' :: r2 => tryClose r2
       | _ => none).orElse
        (fun _ =>
          match targetAdjMatch rest with
          | some res => some res
          | none => none)
  | _ :: rest => targetAdjMatch rest

end CnlParse

namespace CnlParse

open JsStr JsNum Fnv

/-- First match of a fenced block regex such as
`/```description\n([\s\S]*?)\n```/`: the earliest opening fence that still
has a closing `\n```` after it; the lazy body runs to the first closing. -/
def fencedSplit (opening : List Char) : List Char → Option (List Char × List Char × List Char)
  | [] => none
  | c :: rest =>
      if opening.isPrefixOf (c :: rest) then
        match findSplit ['\n', '`', '`', '`'] ((c :: rest).drop opening.length) with
        | some (body, after) => some ([], body, after)
        | none =>
            match fencedSplit opening rest with
            | some (b, d, a) => some (c :: b, d, a)
            | none => none
      else
        match fencedSplit opening rest with
        | some (b, d, a) => some (c :: b, d, a)
        | none => none

/-- The opening fence of `DESCRIPTION_REGEX`. -/
def descOpen : List Char := "```description\n".data

/-- The opening fence of `GRAPH_DESCRIPTION_REGEX`. -/
def graphDescOpen : List Char := "```graph-description\n".data

/-- `ACCOUNTING_RELATION_MAP`: `debit` and `credit` rewritten to the Petri
vocabulary, everything else kept. -/
def mapRelationName (trimmedRelName : List Char) : Bool × List Char :=
  if trimmedRelName = "debit".data then (true, "has post_state".data)
  else if trimmedRelName = "credit".data then (true, "has prior_state".data)
  else (false, trimmedRelName)

/-- The two operations emitted per relation target: the implicit `addNode`
for the target, then the `addRelation`. -/
def relationTargetOps (nodeId : List Char) (morphId : Option String)
    (trimmedRelName : List Char) (rawTarget : List Char) : List CnlOp :=
  let (isAccounting, mappedRelName) := mapRelationName trimmedRelName
  let (weight, target) :=
    match weightTargetMatch rawTarget with
    | some (w, t) => (w, t)
    | none => ((1 : Rat), rawTarget)
  let (targetAdjective, targetBaseName) :=
    match targetAdjMatch target with
    | some (adj, base) => (some (trim adj), trim base)
    | none => (none, target)
  let targetDisplayName := target
  let cleanTargetBase := cleanName targetBaseName
  let targetId :=
    match targetAdjective with
    | some adj => cleanName adj ++ '_' :: cleanTargetBase
    | none => cleanTargetBase
  let relId := "rel_".data ++ nodeId ++ '_' :: cleanKeepChars trimmedRelName ++ '_' :: targetId
  [CnlOp.addNode (String.mk targetId) (String.mk targetBaseName) (String.mk targetDisplayName)
      (some (if isAccounting then "Account" else "class")) none none none
      (targetAdjective.map String.mk) none false,
   CnlOp.addRelation (String.mk relId) (String.mk nodeId) (String.mk targetId)
      (String.mk mappedRelName) (some weight) morphId false]

/-- All operations of one relation line. -/
def relationLineOps (nodeId : List Char) (morphId : Option String)
    (relName targets : List Char) : List CnlOp :=
  let trimmedRelName := trim relName
  ((splitOnChar ';' targets).map trim).filter (· ≠ []) |>.flatMap
    (relationTargetOps nodeId morphId trimmedRelName)

/-- The operation of one attribute line, when the line matches. -/
def attrLineOp (nodeId : List Char) (morphId : Option String)
    (line : List Char) : Option CnlOp :=
  match attrLineMatch line with
  | some (nm, rawValue) =>
      let av := extractAttrValue rawValue
      let attrId := "attr_".data ++ nodeId ++ '_' :: cleanKeepChars nm ++ '_' :: fnv1aHash av.value
      some (.addAttribute (String.mk attrId) (String.mk nodeId) (String.mk (trim nm))
        (String.mk av.value) (toField av.unit) (toField av.quantifier)
        (toField av.adverb) (toField av.modality) morphId)
  | none => none

/-- `processNeighborhood` / `processMorphNeighborhood` of cnl-parser; the two
source functions are identical except that the latter stamps the morph id on
attribute and relation payloads, which the `morphId` argument captures. -/
def processNeighborhoodCore (nodeId : List Char) (morphId : Option String)
    (lines : List (List Char)) : List CnlOp :=
  let content0 := joinLines lines
  let (descOps, content) :=
    match fencedSplit descOpen content0 with
    | some (b, body, a) =>
        ([CnlOp.updateNode (String.mk (nodeId ++ "_description".data)) (String.mk nodeId)
            (String.mk (trim body))],
         trim (b ++ a))
    | none => ([], content0)
  let lines2 := splitOnChar '\n' content
  let attrOps := (lines2.filter isAttrLine).filterMap (attrLineOp nodeId morphId)
  let funcOps := lines2.filterMap (fun line =>
    (functionLineMatch line).map (fun nm =>
      CnlOp.applyFunction
        (String.mk ("func_".data ++ nodeId ++ '_' :: cleanKeepChars nm))
        (String.mk nodeId) (String.mk (trim nm))))
  let relOps := lines2.flatMap (fun line =>
    match relationLineMatch line with
    | some (relName, targets) => relationLineOps nodeId morphId relName targets
    | none => [])
  descOps ++ attrOps ++ funcOps ++ relOps

/-! ### Structural tree (`buildStructuralTree`) -/

/-- One `#` node block with its `##` morph blocks. -/
structure NodeBlock where
  heading : List Char
  content : List (List Char)
  morphs : List (List Char × List (List Char))
deriving DecidableEq, Repr

/-- Classification of one line: `none` for content, `some (hashes, name)` for
a heading line `^\s*#+\s+(.+)$` with the captured name trimmed. -/
def headingHashes (line : List Char) : Option (Nat × List Char) :=
  let t := trimL line
  let hashes := t.takeWhile (fun c => c = '#')
  let rest := t.drop hashes.length
  if hashes ≠ [] ∧ rest.length ≥ 2 ∧ (rest.head?.elim false isWs = true) then
    some (hashes.length, trim rest)
  else none

/-- Append a content line to the block under construction: to the last open
morph when one exists, otherwise to the node content. -/
def NodeBlock.push (nb : NodeBlock) (line : List Char) : NodeBlock :=
  match nb.morphs.getLast? with
  | some _ => { nb with morphs := nb.morphs.dropLast ++ [((nb.morphs.getLast!).1, (nb.morphs.getLast!).2 ++ [line])] }
  | none => { nb with content := nb.content ++ [line] }

/-- `buildStructuralTree`: `#` opens a node block, `##` opens a morph block
under the current node, everything else is content of the innermost open
block; lines before the first heading and blank lines are dropped. -/
def buildStructuralTree (lines : List (List Char)) : List NodeBlock :=
  let step := fun (st : List NodeBlock × Option NodeBlock) (line : List Char) =>
    let (done, cur) := st
    if trim line = [] then st
    else
      match headingHashes line, cur with
      | some (2, name), some nb => (done, some { nb with morphs := nb.morphs ++ [(name, [])] })
      | some (1, _), _ => (done ++ cur.toList, some ⟨trim line, [], []⟩)
      | _, some nb => (done, some (nb.push line))
      | _, none => st
  let (done, cur) := lines.foldl step ([], none)
  done ++ cur.toList

end CnlParse

namespace CnlParse

open JsStr JsNum

/-! ### Mindmap sub-grammar -/

/-- Split at the last occurrence of one character. -/
def findLastSplit (c : Char) (l : List Char) : Option (List Char × List Char) :=
  match findSplit [c] l.reverse with
  | some (a, b) => some (b.reverse, a.reverse)
  | none => none

/-- Match `MINDMAP_HEADING_REGEX` `/^\s*#\s+(.+?)\s+<([^>]+)>\s*$/`:
a single `#`, a name, then a final `<relation>`; both captures are returned
trimmed, as their uses trim them.  The `[^>]+` class forces the match onto
the last `<` and the final `>`. -/
def mindmapHeadingMatch (line : List Char) : Option (List Char × List Char) :=
  match trimL line with
  | '#' :: rest =>
      if rest.takeWhile isWs = [] then none
      else
        let r := trimR (trimL rest)
        match r.getLast? with
        | some '>' =>
            let body := r.dropLast
            match findLastSplit '<' body with
            | some (before, inner) =>
                if inner ≠ [] ∧ inner.contains '>' = false ∧
                    (before.getLast?.elim false isWs = true) ∧ trim before ≠ [] then
                  some (trim before, trim inner)
                else none
            | none => none
        | _ => none
  | _ => none

/-- Match `MINDMAP_ITEM_REGEX` `/^(\s*)-\s+(.+)$/`: the indent is the length
of the leading whitespace run; the item text is returned trimmed. -/
def mindmapItemMatch (line : List Char) : Option (Nat × List Char) :=
  let ws := line.takeWhile isWs
  match line.drop ws.length with
  | '-' :: rest =>
      if rest.length ≥ 2 ∧ (rest.head?.elim false isWs = true) then
        some (ws.length, trim rest)
      else none
  | _ => none

/-- Pop the mindmap parent stack while the top has indent `≥` the item indent
and more than the root remains. -/
def popStack (indent : Int) : List (List Char × Int) → List (List Char × Int)
  | [] => []
  | [top] => [top]
  | top :: rest => if top.2 ≥ indent then popStack indent rest else top :: rest

/-- `parseMindmapBlock`: one `addNode` for the root, then per item line one
`addNode` plus one `addRelation` to the stack parent. -/
def parseMindmapBlock (lines : List (List Char)) : List CnlOp :=
  match lines with
  | [] => []
  | first :: rest =>
      match mindmapHeadingMatch first with
      | none => []
      | some (rootName, relationLabel) =>
          let rootId := cleanName rootName
          let rootOp := CnlOp.addNode (String.mk rootId) (String.mk rootName) (String.mk rootName)
            none (some (String.mk rootId)) (some "individual") (some []) none none true
          let step := fun (st : List CnlOp × List (List Char × Int)) (line : List Char) =>
            let (ops, stack) := st
            match mindmapItemMatch line with
            | none => st
            | some (indent, itemName) =>
                let itemId := cleanName itemName
                let stack2 := popStack (indent : Int) stack
                let parentId := (stack2.headD (rootId, -1)).1
                let relId := "rel_".data ++ parentId ++ '_' :: cleanName relationLabel ++ '_' :: itemId
                (ops ++
                  [CnlOp.addNode (String.mk itemId) (String.mk itemName) (String.mk itemName)
                      (some "class") none none none none none true,
                   CnlOp.addRelation (String.mk relId) (String.mk parentId) (String.mk itemId)
                      (String.mk relationLabel) none none true],
                 (itemId, (indent : Int)) :: stack2)
          (rest.foldl step ([rootOp], [(rootId, -1)])).1

/-! ### Block pre-scan (`parseAllBlocks`) and the top-level parse -/

/-- A mindmap or plain-CNL sub-block of the input. -/
structure ParsedBlock where
  isMindmap : Bool
  lines : List (List Char)
deriving DecidableEq, Repr

/-- `parseAllBlocks`: a mindmap block opens at a mindmap heading and absorbs
item lines, silently consuming blank lines; every other line run is one CNL
block ending right before the next mindmap heading. -/
def parseAllBlocks (lines : List (List Char)) : List ParsedBlock :=
  let step := fun (st : List ParsedBlock × Option ParsedBlock) (line : List Char) =>
    let (done, cur) := st
    match cur with
    | some b =>
        if b.isMindmap then
          if trim line = [] then st
          else if (mindmapItemMatch line).isSome then
            (done, some { b with lines := b.lines ++ [line] })
          else if (mindmapHeadingMatch line).isSome then
            (done ++ [b], some ⟨true, [line]⟩)
          else (done ++ [b], some ⟨false, [line]⟩)
        else
          if (mindmapHeadingMatch line).isSome then
            (done ++ [b], some ⟨true, [line]⟩)
          else (done, some { b with lines := b.lines ++ [line] })
    | none =>
        if (mindmapHeadingMatch line).isSome then (done, some ⟨true, [line]⟩)
        else (done, some ⟨false, [line]⟩)
  let (done, cur) := lines.foldl step ([], none)
  done ++ cur.toList

/-- `generateMorphId`: bump the module counter and build the id. -/
def generateMorphId (counter : Nat) (nodeId morphName : List Char) : List Char × Nat :=
  let c := counter + 1
  (nodeId ++ "_morph_".data ++ cleanKeepChars (lowerL morphName) ++ '_' :: natToChars c, c)

/-- The operations of one node block of the structural tree, threading the
morph counter. -/
def nodeBlockOps (counter : Nat) (nb : NodeBlock) : List CnlOp × Nat :=
  let h := processNodeHeading nb.heading
  let nodeOp := CnlOp.addNode (String.mk h.id) (String.mk h.baseName) (String.mk h.displayName)
    none (some (String.mk h.id)) (some (String.mk h.nodeType)) (some [])
    (h.adjective.map String.mk) (h.quantifier.map String.mk) false
  let nbhOps := processNeighborhoodCore h.id none nb.content
  let step := fun (st : List CnlOp × Nat) (m : List Char × List (List Char)) =>
    let (ops, c) := st
    let (morphId, c2) := generateMorphId c h.id m.1
    let morphOp := CnlOp.addMorph (String.mk (h.id ++ "_morph_".data ++ m.1))
      (String.mk h.id) (String.mk morphId) (String.mk m.1)
    (ops ++ morphOp :: processNeighborhoodCore h.id (some (String.mk morphId)) m.2, c2)
  nb.morphs.foldl step (nodeOp :: nbhOps, counter)

/-- Match `CURRENCY_REGEX` `/^\s*currency\s*:\s*([^;\n]+?)\s*;?\s*$/i` on one
line, returning the captured value trimmed. -/
def currencyLineMatch (line : List Char) : Option (List Char) :=
  let t := trimL line
  if lowerL (t.take 8) = "currency".data then
    match trimL (t.drop 8) with
    | ':' :: region =>
        let r1 := trimR region
        let a := match r1.getLast? with
          | some ';' => trimR r1.dropLast
          | _ => r1
        let a2 := trimL a
        if a2 ≠ [] then (if a2.contains ';' then none else some a2)
        else if region.takeWhile (fun c => c ≠ ';') ≠ [] then some []
        else none
    | _ => none
  else none

/-- `getOperationsFromCnl` with the module-level morph counter made explicit:
the pair is (operations, counter after the call).  An empty input returns
early, before the counter reset; otherwise the counter is reset to zero and
the blocks are processed in order, followed by the graph-description and
currency operations. -/
def getOperationsFromCnlSt (morphCounter : Nat) (cnlText : String) :
    List CnlOp × Nat :=
  if cnlText = "" then ([], morphCounter)
  else
    let chars := cnlText.data
    let c0 := 0
    let lines := splitOnChar '\n' chars
    let blocks := parseAllBlocks lines
    let step := fun (st : List CnlOp × Nat) (b : ParsedBlock) =>
      let (ops, c) := st
      if b.isMindmap then (ops ++ parseMindmapBlock b.lines, c)
      else
        (buildStructuralTree b.lines).foldl (fun (st2 : List CnlOp × Nat) nb =>
          let (ops2, c2) := st2
          let (nbOps, c3) := nodeBlockOps c2 nb
          (ops2 ++ nbOps, c3)) (ops, c)
    let (ops, cEnd) := blocks.foldl step ([], c0)
    let ops := ops ++
      (match fencedSplit graphDescOpen chars with
       | some (_, body, _) =>
           [CnlOp.updateGraphDescription "graph_description" (String.mk (trim body))]
       | none => [])
    let ops := ops ++
      (match lines.filterMap currencyLineMatch with
       | v :: _ => [CnlOp.setCurrency "graph_currency" (String.mk (trim v))]
       | [] => [])
    (ops, cEnd)

/-- `getOperationsFromCnl` as called by the component (fresh module state). -/
def getOperationsFromCnl (cnlText : String) : List CnlOp :=
  (getOperationsFromCnlSt 0 cnlText).1

end CnlParse

/-! ## Graph data model (`CnlGraphData` of nodebook-parser/types) -/

/-- A polymorphic state of a node with its visibility lists. -/
structure Morph where
  morph_id : String
  node_id : String
  name : String
  relationNode_ids : List String
  attributeNode_ids : List String
deriving DecidableEq, Repr

/-- A graph node; `nbh` points at the active morph. -/
structure CnlNode where
  id : String
  base_name : String
  name : String
  adjective : Option String
  quantifier : Option String
  role : String
  description : Option String
  parent_types : List String
  morphs : List Morph
  nbh : String
deriving DecidableEq, Repr

/-- A directed edge. -/
structure CnlEdge where
  id : String
  source_id : String
  target_id : String
  name : String
  weight : Rat
  morph_ids : List String
deriving DecidableEq, Repr

/-- An attribute record. -/
structure CnlAttribute where
  id : String
  source_id : String
  name : String
  value : String
  unit : Option String
  adverb : Option String
  modality : Option String
  quantifier : Option String
  morph_ids : List String
deriving DecidableEq, Repr

/-- The assembled graph. -/
structure CnlGraphData where
  nodes : List CnlNode
  edges : List CnlEdge
  attributes : List CnlAttribute
  description : Option String
  currency : Option String
  errors : List String
deriving DecidableEq, Repr

namespace GraphAssembly

/-- `createBasicMorph`: bump the module counter, build the basic morph. -/
def createBasicMorph (counter : Nat) (nodeId : String) : Morph × Nat :=
  let c := counter + 1
  (⟨String.mk (nodeId.data ++ "_morph_basic_".data ++ JsNum.natToChars c),
    nodeId, "basic", [], []⟩, c)

/-- Replace the node with the given id (ids are unique after pass 1, and the
JavaScript `Map` updates in place, keeping insertion order). -/
def updateNodeList (ns : List CnlNode) (nodeId : String) (f : CnlNode → CnlNode) :
    List CnlNode :=
  ns.map (fun n => if n.id = nodeId then f n else n)

/-- Pass 1 of `operationsToGraph`: create one node per first `addNode`
occurrence of an id; later `addNode` operations for the same id are no-ops. -/
def pass1 (counter : Nat) (ops : List CnlOp) : List CnlNode × Nat :=
  ops.foldl (fun (st : List CnlNode × Nat) op =>
    let (ns, c) := st
    match op with
    | .addNode opId baseName _ payloadRole _ optRole optParentTypes adjective _ _ =>
        if ns.any (fun n => n.id = opId) then st
        else
          let role := (optRole.orElse (fun _ => payloadRole)).getD "individual"
          let name :=
            match adjective with
            | some adj => String.mk (adj.data ++ ' ' :: baseName.data)
            | none => baseName
          let (basicMorph, c2) := createBasicMorph c opId
          (ns ++ [⟨opId, baseName, name, adjective, none, role, none,
            optParentTypes.getD [], [basicMorph], basicMorph.morph_id⟩], c2)
    | _ => st) ([], counter)

/-- Pass 2: append each `addMorph` morph to its owning node, when it exists. -/
def pass2 (ns : List CnlNode) (ops : List CnlOp) : List CnlNode :=
  ops.foldl (fun ns op =>
    match op with
    | .addMorph _ nodeId morphId morphName =>
        if ns.any (fun n => n.id = nodeId) then
          updateNodeList ns nodeId (fun n =>
            { n with morphs := n.morphs ++ [⟨morphId, nodeId, morphName, [], []⟩] })
        else ns
    | _ => ns) ns

/-- The pass-3 state. -/
structure Pass3State where
  nodes : List CnlNode
  edges : List CnlEdge
  attributes : List CnlAttribute
  description : Option String
  currency : Option String
deriving DecidableEq, Repr

/-- Attach a relation or attribute id to the targeted morph of the source
node: to the named morph when the operation carries a morph id and that morph
exists, otherwise to the first (basic) morph; returns the updated node list
and the `morph_ids` stamped on the record. -/
def linkToMorph (ns : List CnlNode) (sourceId : String) (morphId : Option String)
    (recId : String) (isAttr : Bool) : List CnlNode × List String :=
  match ns.find? (fun n => n.id = sourceId) with
  | none => (ns, [])
  | some sourceNode =>
      match morphId with
      | some mid =>
          match sourceNode.morphs.find? (fun m => m.morph_id = mid) with
          | some _ =>
              (updateNodeList ns sourceId (fun n =>
                { n with morphs := n.morphs.map (fun m =>
                    if m.morph_id = mid then
                      if isAttr then { m with attributeNode_ids := m.attributeNode_ids ++ [recId] }
                      else { m with relationNode_ids := m.relationNode_ids ++ [recId] }
                    else m) }),
               [mid])
          | none => (ns, [])
      | none =>
          match sourceNode.morphs with
          | [] => (ns, [])
          | basic :: _ =>
              (updateNodeList ns sourceId (fun n =>
                { n with morphs :=
                    match n.morphs with
                    | [] => []
                    | b :: rest =>
                        (if isAttr then { b with attributeNode_ids := b.attributeNode_ids ++ [recId] }
                         else { b with relationNode_ids := b.relationNode_ids ++ [recId] }) :: rest }),
               [basic.morph_id])

/-- One pass-3 step. -/
def pass3Step (st : Pass3State) (op : CnlOp) : Pass3State :=
  match op with
  | .addRelation opId source target name weight morphId _ =>
      let (ns, morphIds) := linkToMorph st.nodes source morphId opId false
      { st with
          nodes := ns
          edges := st.edges ++ [⟨opId, source, target, name, weight.getD 1, morphIds⟩] }
  | .addAttribute opId source name value unit quantifier adverb modality morphId =>
      let (ns, morphIds) := linkToMorph st.nodes source morphId opId true
      { st with
          nodes := ns
          attributes := st.attributes ++
            [⟨opId, source, name, value, unit, adverb, modality, quantifier, morphIds⟩] }
  | .applyFunction opId source name =>
      let (ns, morphIds) := linkToMorph st.nodes source none opId true
      { st with
          nodes := ns
          attributes := st.attributes ++
            [⟨opId, source, name, String.mk ("function:".data ++ name.data),
              none, none, none, none, morphIds⟩] }
  | .updateNode _ nodeId description =>
      { st with nodes :=
          updateNodeList st.nodes nodeId (fun n => { n with description := some description }) }
  | .updateGraphDescription _ description => { st with description := some description }
  | .setCurrency _ currency => { st with currency := some currency }
  | _ => st

/-- `operationsToGraph` with the module-level basic-morph counter explicit:
the counter is reset to zero on entry, then the three passes run. -/
def operationsToGraphSt (basicMorphCounter : Nat) (ops : List CnlOp) :
    CnlGraphData × Nat :=
  let c0 := 0
  let (ns1, cEnd) := pass1 c0 ops
  let ns2 := pass2 ns1 ops
  let st := ops.foldl pass3Step ⟨ns2, [], [], none, none⟩
  (⟨st.nodes, st.edges, st.attributes, st.description, st.currency, []⟩, cEnd)

/-- `operationsToGraph` as called by the component (fresh module state). -/
def operationsToGraph (ops : List CnlOp) : CnlGraphData :=
  (operationsToGraphSt 0 ops).1

end GraphAssembly

/-! ## Petri-net execution engine (`NodeBookGraph` component) -/

namespace PetriNet

/-- A marking: token count per place id.  The JavaScript `Map` with
`get(id) ?? 0` reads is modelled as a total function defaulting to zero. -/
def Marking := String → Rat

/-- The graph rendering mode. -/
inductive GraphMode where
  | mindmap
  | petriNet
  | conceptMap
deriving DecidableEq, Repr

/-- Mode detection: any node with role `Transition` makes a Petri net; else a
non-empty all-mindmap operation stream makes a mindmap; else a concept map. -/
def graphMode (g : CnlGraphData) (operations : List CnlOp) : GraphMode :=
  if g.nodes.any (fun n => n.role = "Transition") then .petriNet
  else if operations.length > 0 && operations.all CnlOp.isFromMindmap then .mindmap
  else .conceptMap

/-- The set of `has prior_state` edge targets (prior-state places). -/
def priorStateNodeIds (g : CnlGraphData) : List String :=
  (g.edges.filter (fun e => e.name = "has prior_state")).map (·.target_id)

/-- The set of `has post_state` edge targets. -/
def postStateNodeIds (g : CnlGraphData) : List String :=
  (g.edges.filter (fun e => e.name = "has post_state")).map (·.target_id)

/-- The marking-initialization effect: prior-state places get `initialTokens`
tokens, post-only places get zero, and outside Petri mode the marking is the
empty map (every read then defaults to zero). -/
def initialMarking (g : CnlGraphData) (mode : GraphMode) (initialTokens : Rat) : Marking :=
  fun p =>
    if mode = .petriNet ∧ p ∈ priorStateNodeIds g then initialTokens else 0

/-- The input places of a transition: targets of its `has prior_state` edges,
listed once per edge (parallel arcs repeat their target). -/
def inputPlaces (g : CnlGraphData) (transitionId : String) : List String :=
  ((g.edges.filter (fun e => e.source_id = transitionId && e.name = "has prior_state")).map
    (·.target_id))

/-- The output places of a transition, once per `has post_state` edge. -/
def outputPlaces (g : CnlGraphData) (transitionId : String) : List String :=
  ((g.edges.filter (fun e => e.source_id = transitionId && e.name = "has post_state")).map
    (·.target_id))

/-- `isTransitionEnabled`: at least one input place exists and every input
place holds at least one token.  Arc weights are not consulted. -/
def isTransitionEnabled (g : CnlGraphData) (transitionId : String)
    (currentMarking : Marking) : Bool :=
  let inputs := inputPlaces g transitionId
  decide (inputs.length > 0) && inputs.all (fun placeId => decide (1 ≤ currentMarking placeId))

/-- Point update of a marking. -/
def Marking.set (m : Marking) (p : String) (v : Rat) : Marking :=
  fun q => if q = p then v else m q

/-- `fireTransition`: when enabled, subtract one token per input arc and add
one token per output arc; otherwise return the marking unchanged. -/
def fireTransition (g : CnlGraphData) (transitionId : String) (prev : Marking) : Marking :=
  if isTransitionEnabled g transitionId prev then
    let afterInputs := (inputPlaces g transitionId).foldl
      (fun (next : Marking) placeId => next.set placeId (next placeId - 1)) prev
    (outputPlaces g transitionId).foldl
      (fun (next : Marking) placeId => next.set placeId (next placeId + 1)) afterInputs
  else prev

/-- `resetMarking`: recompute the Petri-mode initial marking. -/
def resetMarking (g : CnlGraphData) (initialTokens : Rat) : Marking :=
  initialMarking g .petriNet initialTokens

/-- Markings reachable from the initial marking through `fireTransition` and
`resetMarking` calls. -/
inductive Reachable (g : CnlGraphData) (initialTokens : Rat) : Marking → Prop where
  | init : Reachable g initialTokens (initialMarking g .petriNet initialTokens)
  | fire (t : String) {m : Marking} (hm : Reachable g initialTokens m) :
      Reachable g initialTokens (fireTransition g t m)
  | reset {m : Marking} (hm : Reachable g initialTokens m) :
      Reachable g initialTokens (resetMarking g initialTokens)

end PetriNet

/-- Modelled from the spec: the weight-summing enabling test that the
specification describes — summing the weights of all `has prior_state` edges
of the transition grouped by target place, every required place must hold at
least the summed weight.  This is the comparison definition for the
refinement claim about `isTransitionEnabled`; the engine source contains no
weight-summing test. -/
def specWeightedEnabled (g : CnlGraphData) (transitionId : String)
    (m : PetriNet.Marking) : Prop :=
  ∀ place ∈ PetriNet.inputPlaces g transitionId,
    ((g.edges.filter (fun e =>
        e.source_id = transitionId && e.name = "has prior_state" && e.target_id = place)).map
      (·.weight)).sum ≤ m place

instance (g : CnlGraphData) (t : String) (m : PetriNet.Marking) :
    Decidable (specWeightedEnabled g t m) := by
  unfold specWeightedEnabled
  infer_instance
/-! ## Ledger engine (`ledger-parser` / `ledger-compute`) -/

namespace Ledger

open JsStr JsNum

/-- Insertion-ordered JavaScript `Map.set`: update in place when the key
exists, append otherwise. -/
def jsSet {α : Type} (m : List (String × α)) (k : String) (v : α) : List (String × α) :=
  match m with
  | [] => [(k, v)]
  | (k0, v0) :: rest => if k0 = k then (k, v) :: rest else (k0, v0) :: jsSet rest k v

/-- JavaScript `Map.get`. -/
def jsGet {α : Type} (m : List (String × α)) (k : String) : Option α :=
  (m.find? (fun p => p.1 = k)).map (·.2)

/-- `Map.get(k) ?? d`. -/
def jsGetD {α : Type} (m : List (String × α)) (k : String) (d : α) : α :=
  (jsGet m k).getD d

/-- `if (!m.has(k)) m.set(k, 0)`: ensure a key is present, seeded with 0. -/
def jsEnsure (m : List (String × Rat)) (k : String) : List (String × Rat) :=
  if (jsGet m k).isSome then m else jsSet m k 0

/-- An `@account` declaration. -/
structure Account where
  name : String
  initialBalance : Rat
deriving DecidableEq, Repr

/-- One parsed table-row transaction. -/
structure Transaction where
  date : String
  description : String
  amount : Rat
  account : String
  targetAccount : Option String
  categories : List String
deriving DecidableEq, Repr

/-- Chart kinds. -/
inductive ChartKind | pie | bar
deriving DecidableEq, Repr

/-- Chart subjects / aggregation periods. -/
inductive ChartSubject | categories | daily | weekly | monthly
deriving DecidableEq, Repr

/-- Report directives after the `---` separator. -/
inductive Directive where
  | balance
  | summary (categories : List String)
  | chart (kind : ChartKind) (subject : ChartSubject)
deriving DecidableEq, Repr

/-- The parsed ledger block. -/
structure LedgerData where
  accounts : List Account
  transactions : List Transaction
  directives : List Directive
  errors : List String
deriving DecidableEq, Repr

/-- Full match of `[-+]?\d+(?:\.\d+)?` (the balance token of
`ACCOUNT_REGEX`), with its exact decimal value. -/
def numberToken (l : List Char) : Option Rat :=
  let (sign, rest) :=
    match l with
    | '-' :: r => ((-1 : Rat), r)
    | '+' :: r => ((1 : Rat), r)
    | r => ((1 : Rat), r)
  let intPart := rest.takeWhile isDigit
  if intPart = [] then none
  else
    match rest.drop intPart.length with
    | [] => some (sign * decimalVal intPart [])
    | '.' :: frac =>
        if frac ≠ [] ∧ frac.all isDigit then some (sign * decimalVal intPart frac)
        else none
    | _ => none

/-- Match `ACCOUNT_REGEX` `/^@account\s+(.+?)\s+([-+]?\d+(?:\.\d+)?)$/` on a
trimmed line: the balance is the final whitespace-free token, the lazily
captured name is everything between the keyword and the final whitespace
run.  When only whitespace separates keyword and balance, the greedy `\s+`
backtracks and donates a single whitespace character to the name capture. -/
def accountMatch (t : List Char) : Option (List Char × Rat) :=
  if "@account".data.isPrefixOf t then
    let r0 := t.drop 8
    match r0 with
    | c :: _ =>
        if isWs c then
          let rev := r0.reverse
          let numTok := (rev.takeWhile (fun d => !isWs d)).reverse
          let wsRun := ((rev.drop numTok.length).takeWhile isWs).reverse
          let p := r0.take (r0.length - numTok.length - wsRun.length)
          match numberToken numTok with
          | some v =>
              if trimL p ≠ [] then some (trimL p, v)
              else if p = [] ∧ wsRun.length ≥ 3 then
                some (wsRun.drop (wsRun.length - 2) |>.take 1, v)
              else none
          | none => none
        else none
    | [] => none
  else none

/-- `TABLE_SEPARATOR_REGEX` `/^\|[\s\-:|]+\|$/`. -/
def isTableSeparator (t : List Char) : Bool :=
  match t with
  | '|' :: rest =>
      decide (rest.length ≥ 2) && rest.getLast?.elim false (· = '|') &&
        rest.dropLast.all (fun c => isWs c || c = '-' || c = ':' || c = '|')
  | _ => false

/-- `COMMENT_REGEX` `/^#\s/`. -/
def isCommentLine (t : List Char) : Bool :=
  match t with
  | '#' :: c :: _ => isWs c
  | _ => false

/-- `DATE_REGEX` `/^\d{4}-\d{2}-\d{2}$/`. -/
def isDateToken (t : List Char) : Bool :=
  decide (t.length = 10) &&
    (t.take 4).all isDigit && ((t.drop 4).head?.elim false (· = '-')) &&
    ((t.drop 5).take 2).all isDigit && ((t.drop 7).head?.elim false (· = '-')) &&
    ((t.drop 8).take 2).all isDigit

/-- `parseCategories`: whitespace-split the tag field, keep `#`-prefixed
tokens, drop the hash. -/
def parseCategories (tagString : List Char) : List String :=
  ((splitWsRuns (trim tagString)).filter (fun tok => tok.head?.elim false (· = '#'))).map
    (fun tok => String.mk (tok.drop 1))

/-- `isHeaderRow`: at least three cells and the first one spells a header
word. -/
def isHeaderRow (cells : List (List Char)) : Bool :=
  decide (cells.length ≥ 3) &&
    (match cells.head? with
     | some first =>
         decide (lowerL first = "date".data) || decide (lowerL first = "description".data) ||
           decide (lowerL first = "amount".data)
     | none => false)

/-- `TABLE_ROW_REGEX` `/^\|(.+)\|$/` with the inner cells split on `|` and
trimmed. -/
def tableRowCells (t : List Char) : Option (List (List Char)) :=
  match t with
  | '|' :: rest =>
      if rest.length ≥ 2 ∧ (rest.getLast?.elim false (· = '|')) then
        some ((splitOnChar '|' rest.dropLast).map trim)
      else none
  | _ => none

/-- The `From -> To` transfer split `/^(.+?)\s*->\s*(.+)$/`: split at the
first `->` with non-empty sides (cells are already trimmed, so the lazy and
greedy whitespace groups reduce to trimming the two sides). -/
def transferSplit (accountStr : List Char) : Option (List Char × List Char) :=
  match findSplit ['-', '>'] accountStr with
  | some (before, after) =>
      if before ≠ [] ∧ after ≠ [] then some (trim before, trim after) else none
  | none => none

/-- `rest.join(' ')` for the tag cells. -/
def joinWithSpace : List (List Char) → List Char
  | [] => []
  | [l] => l
  | l :: rest => l ++ ' ' :: joinWithSpace rest

/-- `parseTableRow`: date, description, amount, account (with optional
transfer target), tag cells. -/
def parseTableRow (t : List Char) : Option Transaction :=
  match tableRowCells t with
  | none => none
  | some cells =>
      if cells.length < 4 then none
      else
        match cells with
        | dateStr :: description :: amountStr :: accountStr :: rest =>
            if isDateToken dateStr then
              match jsParseFloat amountStr with
              | some amount =>
                  let (account, targetAccount) :=
                    match transferSplit accountStr with
                    | some (a, tgt) => (a, some (String.mk tgt))
                    | none => (accountStr, none)
                  some ⟨String.mk dateStr, String.mk description, amount, String.mk account,
                    targetAccount, parseCategories (joinWithSpace rest)⟩
              | none => none
            else none
        | _ => none

/-- `parseDirective` on a trimmed line. -/
def parseDirective (t : List Char) : Option Directive :=
  match splitWsRuns t with
  | [] => none
  | cmd :: args =>
      if cmd = "balance".data then some .balance
      else if cmd = "summary".data then
        some (.summary (((args.filter (fun p => p.head?.elim false (· = '#'))).map
          (fun p => String.mk (p.drop 1)))))
      else if cmd = "chart".data then
        match args with
        | kindTok :: rest =>
            let kind : Option ChartKind :=
              if kindTok = "pie".data then some .pie
              else if kindTok = "bar".data then some .bar
              else none
            match kind with
            | none => none
            | some k =>
                let subjTok := rest.headD "categories".data
                let subject : Option ChartSubject :=
                  if subjTok = "categories".data then some .categories
                  else if subjTok = "daily".data then some .daily
                  else if subjTok = "weekly".data then some .weekly
                  else if subjTok = "monthly".data then some .monthly
                  else none
                subject.map (.chart k)
        | [] => none
      else none

/-- The running parse state of `parseLedger`. -/
structure ParseState where
  accounts : List Account
  transactions : List Transaction
  directives : List Directive
  errors : List String
  inDirectives : Bool
deriving Repr

/-- One line of the `parseLedger` loop (`i` is the zero-based line index). -/
def parseLedgerLine (st : ParseState) (i : Nat) (rawLine : List Char) : ParseState :=
  let line := trim rawLine
  if line = [] ∨ isCommentLine line then st
  else if line = "---".data then { st with inDirectives := true }
  else if st.inDirectives then
    match parseDirective line with
    | some d => { st with directives := st.directives ++ [d] }
    | none =>
        { st with errors := st.errors ++
            [String.mk ("Line ".data ++ natToChars (i + 1) ++ ": Unknown directive \"".data ++
              line ++ ['"'])] }
  else if isTableSeparator line then st
  else
    match accountMatch line with
    | some (nm, v) => { st with accounts := st.accounts ++ [⟨String.mk nm, v⟩] }
    | none =>
        let fromRow :=
          if line.head?.elim false (· = '|') then
            match tableRowCells line with
            | some cells =>
                if isHeaderRow cells then some st
                else
                  match parseTableRow line with
                  | some tx => some { st with transactions := st.transactions ++ [tx] }
                  | none => none
            | none =>
                match parseTableRow line with
                | some tx => some { st with transactions := st.transactions ++ [tx] }
                | none => none
          else none
        match fromRow with
        | some st2 => st2
        | none =>
            { st with errors := st.errors ++
                [String.mk ("Line ".data ++ natToChars (i + 1) ++ ": Could not parse \"".data ++
                  line ++ ['"'])] }

/-- Stable insertion of a transaction into a date-sorted list: the new
element goes before the first element whose date is not strictly smaller. -/
def orderedInsertTx (x : Transaction) : List Transaction → List Transaction
  | [] => [x]
  | y :: rest => if x.date ≤ y.date then x :: y :: rest else y :: orderedInsertTx x rest

/-- The final `transactions.sort` with the `localeCompare`-on-date
comparator.  `Array.prototype.sort` is stable and the comparator is a total
preorder on the date key, so its output is the unique date-sorted,
file-order-preserving rearrangement; insertion sort computes exactly that
list (sortedness and the per-date stability equation are proved in the
claim about the ledger computation). -/
def stableSortByDate : List Transaction → List Transaction
  | [] => []
  | x :: rest => orderedInsertTx x (stableSortByDate rest)

/-- `parseLedger`. -/
def parseLedger (code : String) : LedgerData :=
  let lines := splitOnChar '\n' code.data
  let st := (lines.enum.foldl (fun st (p : Nat × List Char) => parseLedgerLine st p.1 p.2)
    (⟨[], [], [], [], false⟩ : ParseState))
  ⟨st.accounts, stableSortByDate st.transactions, st.directives, st.errors⟩

/-- The transaction list of `parseLedger` in file order, before the final
sort (used to state the stability property). -/
def parseLedgerRawTransactions (code : String) : List Transaction :=
  let lines := splitOnChar '\n' code.data
  ((lines.enum.foldl (fun st (p : Nat × List Char) => parseLedgerLine st p.1 p.2)
    (⟨[], [], [], [], false⟩ : ParseState)) : ParseState).transactions

/-! ### `computeLedger` (ledger-compute) -/

/-- A computed transaction row. -/
structure TransactionRow where
  date : String
  description : String
  amount : Rat
  account : String
  categories : List String
  runningBalance : Rat
deriving DecidableEq, Repr

/-- A final account balance. -/
structure AccountBalance where
  name : String
  balance : Rat
deriving DecidableEq, Repr

/-- A category summary entry. -/
structure CategorySummary where
  category : String
  total : Rat
  count : Nat
deriving DecidableEq, Repr

/-- The computed ledger. -/
structure ComputedLedger where
  rows : List TransactionRow
  accountBalances : List AccountBalance
  categorySummaries : List CategorySummary
deriving DecidableEq, Repr

/-- The opening balances: every declared account seeded with its initial
balance, in declaration order. -/
def initialBalances (accounts : List Account) : List (String × Rat) :=
  accounts.foldl (fun m a => jsSet m a.name a.initialBalance) []

/-- One loop iteration of `computeLedger` on the balances map: auto-create
the source account at zero, add the signed amount (the first component is
the `newBalance` reported as the running balance), then subtract the amount
from the transfer target when one is present. -/
def txStep (balances : List (String × Rat)) (tx : Transaction) :
    Rat × List (String × Rat) :=
  let b0 := jsEnsure balances tx.account
  let newBalance := jsGetD b0 tx.account 0 + tx.amount
  let b1 := jsSet b0 tx.account newBalance
  let b2 :=
    match tx.targetAccount with
    | none => b1
    | some t =>
        let bt := jsEnsure b1 t
        jsSet bt t (jsGetD bt t 0 - tx.amount)
  (newBalance, b2)

/-- The balances map after one whole transaction. -/
def applyTx (balances : List (String × Rat)) (tx : Transaction) : List (String × Rat) :=
  (txStep balances tx).2

/-- The transaction loop of `computeLedger`: final balances and rows.  The
row keeps the `newBalance` of its own step and the loop continues on the
updated map. -/
def ledgerLoop (balances : List (String × Rat)) :
    List Transaction → List (String × Rat) × List TransactionRow
  | [] => (balances, [])
  | tx :: rest =>
      let r := ledgerLoop (applyTx balances tx) rest
      (r.1, ⟨tx.date, tx.description, tx.amount, tx.account, tx.categories,
        (txStep balances tx).1⟩ :: r.2)

/-- The category keys a transaction is booked under — its tags, or the
sentinel `uncategorized` when it has none. -/
def catKeys (tx : Transaction) : List String :=
  if tx.categories.length > 0 then tx.categories else ["uncategorized"]

/-- Book one category key of one transaction into the totals map. -/
def catStep (amt : Rat) (m : List (String × Rat × Nat)) (cat : String) :
    List (String × Rat × Nat) :=
  let entry := jsGetD m cat (0, 0)
  jsSet m cat (entry.1 + amt, entry.2 + 1)

/-- The category totals map: per key a running (total, count). -/
def categoryTotals (txs : List Transaction) : List (String × Rat × Nat) :=
  txs.foldl (fun m tx => (catKeys tx).foldl (catStep tx.amount) m) []

/-- Stable insertion of a summary entry by category name. -/
def insertSummary (x : CategorySummary) : List CategorySummary → List CategorySummary
  | [] => [x]
  | y :: rest => if x.category ≤ y.category then x :: y :: rest else y :: insertSummary x rest

/-- Stable insertion sort of the summaries by category name, modelling the
final `sort` with the `localeCompare`-on-category comparator. -/
def sortSummaries : List CategorySummary → List CategorySummary
  | [] => []
  | x :: rest => insertSummary x (sortSummaries rest)

/-- `computeLedger`. -/
def computeLedger (data : LedgerData) : ComputedLedger :=
  let (balances, rows) := ledgerLoop (initialBalances data.accounts) data.transactions
  ⟨rows, balances.map (fun p => ⟨p.1, p.2⟩),
    sortSummaries ((categoryTotals data.transactions).map (fun p => ⟨p.1, p.2.1, p.2.2⟩))⟩

end Ledger

/-! ## Helper definitions for the claims -/

namespace GraphAssembly

/-- The attribute or relation visibility list of one morph of one node,
looked up by node id and morph id (`[]` when either is absent). -/
def morphRecIds (isAttr : Bool) (ns : List CnlNode) (nodeId morphId : String) : List String :=
  match ns.find? (fun n => n.id = nodeId) with
  | some n =>
      match n.morphs.find? (fun m => m.morph_id = morphId) with
      | some mo => if isAttr then mo.attributeNode_ids else mo.relationNode_ids
      | none => []
  | none => []

/-- The head (basic) morph id of a node, when the node exists. -/
def basicMorphId (ns : List CnlNode) (nodeId : String) : Option String :=
  match ns.find? (fun n => n.id = nodeId) with
  | some n => (n.morphs.head?).map (·.morph_id)
  | none => none

end GraphAssembly

namespace Ledger

/-- The intended reading of the transaction rows: each row carries the
running balance of its source account, namely the source balance before the
transaction plus the signed amount. -/
def rowsSpec (balances : List (String × Rat)) : List Transaction → List TransactionRow
  | [] => []
  | tx :: rest =>
      ⟨tx.date, tx.description, tx.amount, tx.account, tx.categories,
        jsGetD balances tx.account 0 + tx.amount⟩ :: rowsSpec (applyTx balances tx) rest

/-- How many times a category key books one transaction. -/
def catCount (c : String) (tx : Transaction) : Nat := (catKeys tx).count c

/-- The total amount and booking count a list of transactions contributes to
one category key. -/
def contribution (c : String) (txs : List Transaction) : Rat × Nat :=
  ((txs.map (fun tx => (catCount c tx : Rat) * tx.amount)).sum,
   (txs.map (catCount c)).sum)

end Ledger

/-! ## Concrete inputs of the claims -/

/-- Example 2 of the specification: a weight-2 input arc. -/
def exPetriText : String := "# A [Transition]\n<has prior_state> 2 X;\n<has post_state> Y;"

/-- Its operation stream. -/
def exPetriOps : List CnlOp := CnlParse.getOperationsFromCnl exPetriText

/-- Its assembled graph. -/
def exPetriGraph : CnlGraphData := GraphAssembly.operationsToGraph exPetriOps

/-- Two parallel unit arcs from one transition into the same place. -/
def exParallelText : String := "# T [Transition]\n<has prior_state> X;\n<has prior_state> X;"

/-- Its assembled graph. -/
def exParallelGraph : CnlGraphData :=
  GraphAssembly.operationsToGraph (CnlParse.getOperationsFromCnl exParallelText)

/-- Example 4 of the specification: the accounting input. -/
def exAccountingText : String :=
  "# Cash [Asset]\nbalance: 1000;\n# Buy [Transaction]\n<debit> 50 Office;\n<credit> 50 Cash;"

/-- Its operation stream. -/
def exAccountingOps : List CnlOp := CnlParse.getOperationsFromCnl exAccountingText

/-- Its assembled graph. -/
def exAccountingGraph : CnlGraphData := GraphAssembly.operationsToGraph exAccountingOps

/-- Example 1 of the specification: a node with a morph. -/
def exWaterText : String := "# Water [Molecule]\nstate: \"liquid\";\n## Ice\nstate: \"solid\";"

/-- Its assembled graph. -/
def exWaterGraph : CnlGraphData :=
  GraphAssembly.operationsToGraph (CnlParse.getOperationsFromCnl exWaterText)

/-- The weighted relation line of the round-trip property. -/
def exWeightedRelGraph : CnlGraphData :=
  GraphAssembly.operationsToGraph (CnlParse.getOperationsFromCnl "# P\n<has prior_state> 6 CO2;")

/-- The same relation line without a weight token. -/
def exDefaultRelGraph : CnlGraphData :=
  GraphAssembly.operationsToGraph (CnlParse.getOperationsFromCnl "# P\n<has prior_state> CO2;")

/-- Example 3 of the specification: the ledger input. -/
def exLedgerText : String :=
  "@account Cash 100.00\n| 2024-01-01 | Coffee | -4.00 | Cash | #food |"

/-- A self-transfer transaction: source and transfer target coincide. -/
def exSelfTransferData : Ledger.LedgerData :=
  ⟨[], [⟨"2024-01-01", "move", 5, "A", some "A", []⟩], [], []⟩

/-! ## Lemmas about the JavaScript map model -/

namespace Ledger

theorem jsGet_jsSet {α : Type} (m : List (String × α)) (k : String) (v : α) (a : String) :
    jsGet (jsSet m k v) a = if a = k then some v else jsGet m a := by
  induction m with
  | nil =>
      by_cases h : a = k
      · subst h; simp [jsSet, jsGet, List.find?]
      · have h2 : ¬ k = a := fun hh => h hh.symm
        simp [jsSet, jsGet, List.find?, h, h2]
  | cons p rest ih =>
      obtain ⟨k0, v0⟩ := p
      by_cases hk : k0 = k
      · subst hk
        by_cases h : a = k0
        · subst h; simp [jsSet, jsGet, List.find?]
        · have h2 : ¬ k0 = a := fun hh => h hh.symm
          simp [jsSet, jsGet, List.find?, h, h2]
      · by_cases h : a = k0
        · subst h
          have h2 : ¬ a = k := fun hh => hk (hh ▸ rfl)
          simp [jsSet, jsGet, List.find?, hk, h2]
        · have h2 : ¬ k0 = a := fun hh => h hh.symm
          simpa [jsSet, jsGet, List.find?, hk, h, h2] using ih

theorem jsGetD_jsSet {α : Type} (m : List (String × α)) (k : String) (v : α) (a : String)
    (d : α) : jsGetD (jsSet m k v) a d = if a = k then v else jsGetD m a d := by
  unfold jsGetD
  rw [jsGet_jsSet]
  by_cases h : a = k <;> simp [h]

theorem isSome_jsGet_jsSet {α : Type} (m : List (String × α)) (k : String) (v : α)
    (a : String) : (jsGet (jsSet m k v) a).isSome = (decide (a = k) || (jsGet m a).isSome) := by
  rw [jsGet_jsSet]
  by_cases h : a = k <;> simp [h]

/-- Ensuring a key is present does not change any defaulted read. -/
theorem jsGetD_ensure (m : List (String × Rat)) (k a : String) :
    jsGetD (jsEnsure m k) a 0 = jsGetD m a 0 := by
  unfold jsEnsure
  by_cases hp : (jsGet m k).isSome
  · simp [hp]
  · rw [if_neg hp, jsGetD_jsSet]
    by_cases h : a = k
    · subst h
      have hnone : jsGet m a = none := by
        cases hg : jsGet m a with
        | none => rfl
        | some v => rw [hg] at hp; simp at hp
      simp [jsGetD, hnone]
    · simp [h]

/-- The `newBalance` of one transaction is the prior balance of its source
account plus the signed amount. -/
theorem txStep_fst (b : List (String × Rat)) (tx : Transaction) :
    (txStep b tx).1 = jsGetD b tx.account 0 + tx.amount := by
  simp only [txStep]
  rw [jsGetD_ensure]

/-- The transaction loop is the fold of `applyTx` paired with `rowsSpec`. -/
theorem ledgerLoop_eq (txs : List Transaction) (b : List (String × Rat)) :
    ledgerLoop b txs = (txs.foldl applyTx b, rowsSpec b txs) := by
  induction txs generalizing b with
  | nil => rfl
  | cons tx rest ih =>
      simp only [ledgerLoop, rowsSpec, List.foldl, ih, txStep_fst]

/-- Pointwise account semantics of one transaction: the source gains the
signed amount, the transfer target loses it, absent accounts read as zero. -/
theorem applyTx_pointwise (b : List (String × Rat)) (tx : Transaction) (a : String) :
    jsGetD (applyTx b tx) a 0 =
      jsGetD b a 0 + (if tx.account = a then tx.amount else 0) -
        (if tx.targetAccount = some a then tx.amount else 0) := by
  cases htgt : tx.targetAccount with
  | none =>
      simp only [applyTx, txStep, htgt, jsGetD_ensure, jsGetD_jsSet]
      split_ifs
      all_goals try (exfalso; assumption)
      all_goals subst_vars
      all_goals try ring
      all_goals simp_all
  | some t =>
      simp only [applyTx, txStep, htgt, jsGetD_ensure, jsGetD_jsSet]
      split_ifs
      all_goals try (exfalso; assumption)
      all_goals subst_vars
      all_goals try ring
      all_goals simp_all

end Ledger

namespace Ledger

/-- Presence after ensuring a key. -/
theorem isSome_jsGet_ensure (m : List (String × Rat)) (k a : String) :
    (jsGet (jsEnsure m k) a).isSome =
      ((jsGet m a).isSome || decide (a = k)) := by
  unfold jsEnsure
  by_cases hp : (jsGet m k).isSome
  · rw [if_pos hp]
    by_cases h : a = k
    · subst h
      simp [hp]
    · simp [h]
  · rw [if_neg hp, isSome_jsGet_jsSet]
    by_cases h : a = k <;> simp [h]

/-- An account exists in the balances map after a transaction exactly when it
existed before, is the source account, or is the transfer target: accounts
are auto-created on first use. -/
theorem applyTx_isSome (b : List (String × Rat)) (tx : Transaction) (a : String) :
    (jsGet (applyTx b tx) a).isSome =
      ((jsGet b a).isSome || decide (tx.account = a) || decide (tx.targetAccount = some a)) := by
  cases htgt : tx.targetAccount with
  | none =>
      simp only [applyTx, txStep, htgt, isSome_jsGet_jsSet, isSome_jsGet_ensure]
      by_cases h : a = tx.account <;> simp [h, eq_comm]
  | some t =>
      simp only [applyTx, txStep, htgt, isSome_jsGet_jsSet, isSome_jsGet_ensure]
      by_cases hat : a = t
      · subst hat
        simp
      · have e1 : decide (a = t) = false := decide_eq_false hat
        have e2 : decide (t = a) = false := decide_eq_false (fun hh => hat hh.symm)
        by_cases has : a = tx.account
        · have e3 : decide (a = tx.account) = true := decide_eq_true has
          have e4 : decide (tx.account = a) = true := decide_eq_true has.symm
          simp only [Option.some.injEq, e1, e2, e3, e4]
          simp
        · have e3 : decide (a = tx.account) = false := decide_eq_false has
          have e4 : decide (tx.account = a) = false :=
            decide_eq_false (fun hh => has hh.symm)
          simp only [Option.some.injEq, e1, e2, e3, e4]
          simp

/-- `computeLedger` rows and balances in closed form: the rows are the
`rowsSpec` reading and the final balances are the fold of `applyTx` over the
declared opening balances. -/
theorem computeLedger_spec (data : LedgerData) :
    (computeLedger data).rows = rowsSpec (initialBalances data.accounts) data.transactions ∧
    (computeLedger data).accountBalances =
      (data.transactions.foldl applyTx (initialBalances data.accounts)).map
        (fun p => ⟨p.1, p.2⟩) := by
  unfold computeLedger
  rw [ledgerLoop_eq]
  exact ⟨rfl, rfl⟩

end Ledger

namespace Ledger

/-- Reading one key after booking a list of category keys at one amount. -/
theorem catFold_get (amt : Rat) (c : String) (cats : List String) :
    ∀ m : List (String × Rat × Nat),
    jsGet (cats.foldl (catStep amt) m) c =
      (if (jsGet m c).isSome ∨ 0 < cats.count c then
        some ((jsGetD m c (0, 0)).1 + (cats.count c : Rat) * amt,
          (jsGetD m c (0, 0)).2 + cats.count c)
       else none) := by
  induction cats with
  | nil =>
      intro m
      by_cases hp : (jsGet m c).isSome
      · cases hg : jsGet m c with
        | none => rw [hg] at hp; simp at hp
        | some v => simp [hg, jsGetD]
      · cases hg : jsGet m c with
        | none => simp [hg, hp]
        | some v => rw [hg] at hp; simp at hp
  | cons cat rest ih =>
      intro m
      rw [List.foldl_cons, ih]
      have hset : jsGetD (catStep amt m cat) c (0, 0) =
          if c = cat then ((jsGetD m cat (0, 0)).1 + amt, (jsGetD m cat (0, 0)).2 + 1)
          else jsGetD m c (0, 0) := by
        simp only [catStep]
        rw [jsGetD_jsSet]
      have hsome : (jsGet (catStep amt m cat) c).isSome =
          (decide (c = cat) || (jsGet m c).isSome) := by
        simp only [catStep]
        rw [isSome_jsGet_jsSet]
      by_cases hc : c = cat
      · subst hc
        have hcount : (c :: rest).count c = rest.count c + 1 := by
          simp [List.count_cons]
        rw [hsome, hset, hcount, if_pos rfl]
        have hl : (decide (c = c) || (jsGet m c).isSome) = true := by simp
        rw [hl]
        have hcondl : ((true : Bool) = true ∨ 0 < rest.count c) := Or.inl rfl
        have hcondr : ((jsGet m c).isSome = true ∨ 0 < rest.count c + 1) :=
          Or.inr (Nat.succ_pos _)
        rw [if_pos hcondl, if_pos hcondr]
        have : ((rest.count c + 1 : Nat) : Rat) = (rest.count c : Rat) + 1 := by push_cast; ring
        simp only [this]
        refine congrArg some (Prod.ext ?_ ?_)
        · show (jsGetD m c (0, 0)).1 + amt + (List.count c rest : Rat) * amt = _
          ring
        · show (jsGetD m c (0, 0)).2 + 1 + List.count c rest = _
          omega
      · have hcount : (cat :: rest).count c = rest.count c := by
          simp [List.count_cons, fun hh : c = cat => hc hh]
        rw [hsome, hset, hcount, if_neg hc]
        have hl : (decide (c = cat) || (jsGet m c).isSome) = (jsGet m c).isSome := by
          simp [hc]
        rw [hl]

end Ledger

namespace Ledger

theorem isSome_ite_some {α : Type} (c : Prop) [Decidable c] (x : α) :
    (if c then some x else none).isSome = decide c := by
  by_cases h : c <;> simp [h]

/-- Defaulted reading after booking a list of category keys. -/
theorem catFold_getD (amt : Rat) (c : String) (cats : List String)
    (m : List (String × Rat × Nat)) :
    jsGetD (cats.foldl (catStep amt) m) c (0, 0) =
      ((jsGetD m c (0, 0)).1 + (cats.count c : Rat) * amt,
        (jsGetD m c (0, 0)).2 + cats.count c) := by
  rw [show jsGetD (cats.foldl (catStep amt) m) c (0, 0) =
    (jsGet (cats.foldl (catStep amt) m) c).getD (0, 0) from rfl, catFold_get]
  by_cases hcond : (jsGet m c).isSome = true ∨ 0 < cats.count c
  · rw [if_pos hcond]
    rfl
  · rw [if_neg hcond]
    push_neg at hcond
    obtain ⟨h1, h2⟩ := hcond
    have hcnt : cats.count c = 0 := by omega
    have hnone : jsGet m c = none := by
      cases hg : jsGet m c with
      | none => rfl
      | some v => rw [hg] at h1; simp at h1
    simp [jsGetD, hnone, hcnt]

/-- Reading one category key after booking a list of transactions. -/
theorem catTxFold_get (c : String) (txs : List Transaction) :
    ∀ m : List (String × Rat × Nat),
    jsGet (txs.foldl (fun m tx => (catKeys tx).foldl (catStep tx.amount) m) m) c =
      (if (jsGet m c).isSome ∨ 0 < (txs.map (catCount c)).sum then
        some ((jsGetD m c (0, 0)).1 + (contribution c txs).1,
          (jsGetD m c (0, 0)).2 + (contribution c txs).2)
       else none) := by
  induction txs with
  | nil =>
      intro m
      by_cases hp : (jsGet m c).isSome
      · cases hg : jsGet m c with
        | none => rw [hg] at hp; simp at hp
        | some v => simp [hg, jsGetD, contribution]
      · cases hg : jsGet m c with
        | none => simp [hg, hp, contribution]
        | some v => rw [hg] at hp; simp at hp
  | cons tx rest ih =>
      intro m
      rw [List.foldl_cons, ih]
      have hsome : (jsGet ((catKeys tx).foldl (catStep tx.amount) m) c).isSome =
          decide ((jsGet m c).isSome = true ∨ 0 < catCount c tx) := by
        rw [catFold_get]
        exact isSome_ite_some _ _
      have hgd := catFold_getD tx.amount c (catKeys tx) m
      rw [hsome, hgd]
      have hsum : ((tx :: rest).map (catCount c)).sum = catCount c tx + (rest.map (catCount c)).sum := by
        simp
      refine if_congr ?_ ?_ rfl
      · rw [hsum]
        simp only [decide_eq_true_eq]
        constructor
        · rintro (h | h)
          · rcases h with h | h
            · exact Or.inl h
            · exact Or.inr (by omega)
          · exact Or.inr (by omega)
        · rintro (h | h)
          · exact Or.inl (Or.inl h)
          · by_cases hk : 0 < catCount c tx
            · exact Or.inl (Or.inr hk)
            · exact Or.inr (by omega)
      · have hc1 : (contribution c (tx :: rest)).1 =
            (catCount c tx : Rat) * tx.amount + (contribution c rest).1 := by
          simp [contribution]
        have hc2 : (contribution c (tx :: rest)).2 =
            catCount c tx + (contribution c rest).2 := by
          simp [contribution]
        rw [hc1, hc2]
        refine congrArg some (Prod.ext ?_ ?_)
        · show (jsGetD m c (0, 0)).1 + (catCount c tx : Rat) * tx.amount +
            (contribution c rest).1 = _
          ring
        · show (jsGetD m c (0, 0)).2 + catCount c tx + (contribution c rest).2 = _
          omega

/-- The exact content of the category totals map. -/
theorem categoryTotals_get (c : String) (txs : List Transaction) :
    jsGet (categoryTotals txs) c =
      (if 0 < (txs.map (catCount c)).sum then some (contribution c txs) else none) := by
  unfold categoryTotals
  rw [catTxFold_get]
  refine if_congr ?_ ?_ rfl
  · simp [jsGet]
  · simp [jsGetD, jsGet]

end Ledger

namespace Ledger

theorem mem_orderedInsertTx (x y : Transaction) (l : List Transaction) :
    y ∈ orderedInsertTx x l ↔ y = x ∨ y ∈ l := by
  induction l with
  | nil => simp [orderedInsertTx]
  | cons z rest ih =>
      by_cases h : x.date ≤ z.date
      · simp [orderedInsertTx, h]
      · simp only [orderedInsertTx, if_neg h, List.mem_cons, ih]
        tauto

theorem pairwise_orderedInsertTx (x : Transaction) (l : List Transaction)
    (hl : l.Pairwise (fun a b : Transaction => a.date ≤ b.date)) :
    (orderedInsertTx x l).Pairwise (fun a b : Transaction => a.date ≤ b.date) := by
  induction l with
  | nil => simp [orderedInsertTx]
  | cons z rest ih =>
      rcases List.pairwise_cons.mp hl with ⟨hz, hrest⟩
      by_cases h : x.date ≤ z.date
      · rw [orderedInsertTx, if_pos h]
        refine List.pairwise_cons.mpr ⟨?_, hl⟩
        intro b hb
        rcases List.mem_cons.mp hb with hb | hb
        · exact hb ▸ h
        · exact le_trans h (hz b hb)
      · rw [orderedInsertTx, if_neg h]
        refine List.pairwise_cons.mpr ⟨?_, ih hrest⟩
        intro b hb
        rcases (mem_orderedInsertTx x b rest).mp hb with hb | hb
        · exact hb ▸ le_of_not_le h
        · exact hz b hb

/-- The sort output is sorted by date. -/
theorem pairwise_stableSortByDate (l : List Transaction) :
    (stableSortByDate l).Pairwise (fun a b : Transaction => a.date ≤ b.date) := by
  induction l with
  | nil => simp [stableSortByDate]
  | cons x rest ih => exact pairwise_orderedInsertTx x _ ih

theorem filter_orderedInsertTx (x : Transaction) (l : List Transaction) (d : String) :
    (orderedInsertTx x l).filter (fun t => t.date = d) =
      (x :: l).filter (fun t => t.date = d) := by
  induction l with
  | nil => simp [orderedInsertTx]
  | cons y rest ih =>
      by_cases h : x.date ≤ y.date
      · rw [orderedInsertTx, if_pos h]
      · rw [orderedInsertTx, if_neg h]
        have hne : x.date ≠ y.date := fun hh => h (le_of_eq hh)
        by_cases hx : x.date = d
        · have hy : ¬ (y.date = d) := fun hh => hne (hx.trans hh.symm)
          simp only [List.filter_cons, decide_eq_true_eq]
          rw [if_neg hy, ih]
          simp only [List.filter_cons, decide_eq_true_eq]
          rw [if_pos hx, if_neg hy, if_pos hx]
        · simp only [List.filter_cons, decide_eq_true_eq]
          by_cases hy : y.date = d
          · rw [if_pos hy, ih]
            simp only [List.filter_cons, decide_eq_true_eq]
            rw [if_neg hx, if_pos hy, if_neg hx]
          · rw [if_neg hy, ih]
            simp only [List.filter_cons, decide_eq_true_eq]
            rw [if_neg hx, if_neg hy, if_neg hx]

/-- Stability: transactions of any fixed date keep their file order through
the sort. -/
theorem filter_stableSortByDate (l : List Transaction) (d : String) :
    (stableSortByDate l).filter (fun t => t.date = d) =
      l.filter (fun t => t.date = d) := by
  induction l with
  | nil => rfl
  | cons x rest ih =>
      rw [stableSortByDate, filter_orderedInsertTx]
      simp only [List.filter_cons]
      rw [ih]

theorem mem_insertSummary (x y : CategorySummary) (l : List CategorySummary) :
    y ∈ insertSummary x l ↔ y = x ∨ y ∈ l := by
  induction l with
  | nil => simp [insertSummary]
  | cons z rest ih =>
      by_cases h : x.category ≤ z.category
      · simp [insertSummary, h]
      · simp only [insertSummary, if_neg h, List.mem_cons, ih]
        tauto

theorem mem_sortSummaries (y : CategorySummary) (l : List CategorySummary) :
    y ∈ sortSummaries l ↔ y ∈ l := by
  induction l with
  | nil => exact Iff.rfl
  | cons x rest ih =>
      rw [sortSummaries, mem_insertSummary]
      simp [ih]

theorem jsGet_mem {α : Type} (m : List (String × α)) (k : String) (v : α)
    (h : jsGet m k = some v) : (k, v) ∈ m := by
  unfold jsGet at h
  cases hf : m.find? (fun p => p.1 = k) with
  | none => rw [hf] at h; simp at h
  | some q =>
      rw [hf] at h
      have hq := List.find?_some hf
      have hmem := List.mem_of_find?_eq_some hf
      have hk : q.1 = k := by simpa using hq
      have hv : q.2 = v := by simpa using h
      have hqv : (k, v) = q := by
        cases q with
        | mk q1 q2 =>
            simp only at hk hv
            rw [hk, hv]
      rw [hqv]
      exact hmem

theorem jsGet_isSome_of_mem {α : Type} (m : List (String × α)) (k : String) (v : α)
    (h : (k, v) ∈ m) : (jsGet m k).isSome := by
  unfold jsGet
  have hfind : (m.find? (fun p => p.1 = k)).isSome :=
    List.find?_isSome.mpr ⟨(k, v), h, by simp⟩
  cases hf : m.find? (fun p => p.1 = k) with
  | none => rw [hf] at hfind; simp at hfind
  | some q => simp [hf]

end Ledger

namespace Ledger

/-- When a transaction does not carry the literal tag `uncategorized`, the
sentinel key books it exactly when it is untagged. -/
theorem catCount_sentinel (tx : Transaction) (h : "uncategorized" ∉ tx.categories) :
    catCount "uncategorized" tx = if tx.categories.isEmpty then 1 else 0 := by
  unfold catCount catKeys
  by_cases he : tx.categories.isEmpty
  · have : tx.categories = [] := List.isEmpty_iff.mp he
    simp [this]
  · have hlen : 0 < tx.categories.length := by
      cases hc : tx.categories with
      | nil => rw [hc] at he; simp at he
      | cons a l => simp [hc]
    rw [if_pos hlen, if_neg he]
    exact List.count_eq_zero.mpr h

/-- The sentinel contribution of transactions that never use the literal tag:
the amounts and the number of the untagged ones. -/
theorem contribution_sentinel (txs : List Transaction)
    (h : ∀ tx ∈ txs, "uncategorized" ∉ tx.categories) :
    contribution "uncategorized" txs =
      (((txs.filter (fun tx => tx.categories.isEmpty)).map (·.amount)).sum,
        (txs.filter (fun tx => tx.categories.isEmpty)).length) := by
  induction txs with
  | nil => simp [contribution]
  | cons tx rest ih =>
      have hcc := catCount_sentinel tx (h tx (List.mem_cons_self tx rest))
      have ihr := ih (fun t ht => h t (List.mem_cons_of_mem tx ht))
      have h1 : (contribution "uncategorized" (tx :: rest)).1 =
          (catCount "uncategorized" tx : Rat) * tx.amount +
            (contribution "uncategorized" rest).1 := by
        simp [contribution]
      have h2 : (contribution "uncategorized" (tx :: rest)).2 =
          catCount "uncategorized" tx + (contribution "uncategorized" rest).2 := by
        simp [contribution]
      by_cases he : tx.categories.isEmpty
      · refine Prod.ext ?_ ?_
        · rw [h1, hcc, if_pos he, ihr]
          simp [List.filter_cons, he]
        · rw [h2, hcc, if_pos he, ihr]
          simp [List.filter_cons, he]
          omega
      · refine Prod.ext ?_ ?_
        · rw [h1, hcc, if_neg he, ihr]
          simp [List.filter_cons, he]
        · rw [h2, hcc, if_neg he, ihr]
          simp [List.filter_cons, he]

end Ledger

namespace GraphAssembly

theorem find?_updateNodeList (ns : List CnlNode) (source : String) (f : CnlNode → CnlNode)
    (hf : ∀ n, (f n).id = n.id) (nid : String) :
    (updateNodeList ns source f).find? (fun n => n.id = nid) =
      (ns.find? (fun n => n.id = nid)).map (fun n => if n.id = source then f n else n) := by
  induction ns with
  | nil => rfl
  | cons n rest ih =>
      unfold updateNodeList at ih ⊢
      have hhead : ((if n.id = source then f n else n).id = nid) ↔ (n.id = nid) := by
        by_cases hs : n.id = source
        · rw [if_pos hs, hf]
        · rw [if_neg hs]
      by_cases hn : n.id = nid
      · have hh : (if n.id = source then f n else n).id = nid := hhead.mpr hn
        simp only [List.map_cons, List.find?_cons, decide_eq_true hh, decide_eq_true hn,
          Option.map_some']
      · have hh : ¬ ((if n.id = source then f n else n).id = nid) := fun h => hn (hhead.mp h)
        simp only [List.map_cons, List.find?_cons, decide_eq_false hh, decide_eq_false hn]
        exact ih

theorem find?_morphMap (ms : List Morph) (g : Morph → Morph)
    (hg : ∀ m, (g m).morph_id = m.morph_id) (mid : String) :
    (ms.map g).find? (fun m => m.morph_id = mid) =
      (ms.find? (fun m => m.morph_id = mid)).map g := by
  induction ms with
  | nil => rfl
  | cons m rest ih =>
      by_cases hm : m.morph_id = mid
      · have hh : (g m).morph_id = mid := by rw [hg]; exact hm
        simp only [List.map_cons, List.find?_cons, decide_eq_true hh, decide_eq_true hm,
          Option.map_some']
      · have hh : ¬ (g m).morph_id = mid := by rw [hg]; exact hm
        simp only [List.map_cons, List.find?_cons, decide_eq_false hh, decide_eq_false hm]
        exact ih

end GraphAssembly

namespace GraphAssembly

theorem linkToMorph_some_untouched (ns : List CnlNode) (sourceId mid recId : String)
    (isAttr b : Bool) (nid mid' : String) (h : nid ≠ sourceId ∨ mid' ≠ mid) :
    morphRecIds b (linkToMorph ns sourceId (some mid) recId isAttr).1 nid mid' =
      morphRecIds b ns nid mid' := by
  unfold linkToMorph
  cases hfs : ns.find? (fun n => n.id = sourceId) with
  | none => rfl
  | some sn =>
      dsimp only
      cases hfm : sn.morphs.find? (fun m => m.morph_id = mid) with
      | none => rfl
      | some mo =>
          dsimp only
          unfold morphRecIds
          rw [find?_updateNodeList]
          case hf => intro n; rfl
          cases hfn : ns.find? (fun n => n.id = nid) with
          | none => rfl
          | some n =>
              have hnid : n.id = nid := by simpa using List.find?_some hfn
              simp only [Option.map_some']
              by_cases hns : n.id = sourceId
              · have hmid' : mid' ≠ mid := by
                  rcases h with h | h
                  · exact absurd (hnid ▸ hns) h
                  · exact h
                rw [if_pos hns]
                simp only
                rw [find?_morphMap _ _
                  (fun m => by
                    by_cases hx : m.morph_id = mid <;>
                      by_cases hy : isAttr = true <;> simp [hx, hy]) mid']
                cases hfm2 : n.morphs.find? (fun m => m.morph_id = mid') with
                | none => rfl
                | some mo2 =>
                    have hmo2 : mo2.morph_id = mid' := by simpa using List.find?_some hfm2
                    have hne : ¬ mo2.morph_id = mid := by rw [hmo2]; exact hmid'
                    simp only [Option.map_some', if_neg hne]
              · rw [if_neg hns]

theorem linkToMorph_some_targeted (ns : List CnlNode) (sourceId mid recId : String)
    (isAttr : Bool) (sn : CnlNode) (mo : Morph)
    (hfs : ns.find? (fun n => n.id = sourceId) = some sn)
    (hfm : sn.morphs.find? (fun m => m.morph_id = mid) = some mo) :
    morphRecIds isAttr (linkToMorph ns sourceId (some mid) recId isAttr).1 sourceId mid =
      morphRecIds isAttr ns sourceId mid ++ [recId] := by
  have hsn : sn.id = sourceId := by simpa using List.find?_some hfs
  have hmo : mo.morph_id = mid := by simpa using List.find?_some hfm
  unfold linkToMorph
  rw [hfs]
  try dsimp only
  rw [hfm]
  try dsimp only
  unfold morphRecIds
  rw [find?_updateNodeList]
  case hf => intro n; rfl
  rw [hfs]
  simp only [Option.map_some']
  try dsimp only
  rw [if_pos hsn]
  try dsimp only
  rw [find?_morphMap _ _
    (fun m => by
      by_cases hx : m.morph_id = mid <;>
        by_cases hy : isAttr = true <;> simp [hx, hy]) mid]
  rw [hfm]
  simp only [Option.map_some']
  try dsimp only
  rw [if_pos hmo]
  cases isAttr <;> simp

theorem linkToMorph_none_basic (ns : List CnlNode) (sourceId recId : String)
    (isAttr : Bool) (sn : CnlNode) (bm : Morph) (rest : List Morph)
    (hfs : ns.find? (fun n => n.id = sourceId) = some sn)
    (hms : sn.morphs = bm :: rest) :
    morphRecIds isAttr (linkToMorph ns sourceId none recId isAttr).1 sourceId bm.morph_id =
      morphRecIds isAttr ns sourceId bm.morph_id ++ [recId] := by
  have hsn : sn.id = sourceId := by simpa using List.find?_some hfs
  unfold linkToMorph
  rw [hfs]
  try dsimp only
  rw [hms]
  try dsimp only
  unfold morphRecIds
  rw [find?_updateNodeList]
  case hf => intro n; rfl
  rw [hfs]
  simp only [Option.map_some']
  try dsimp only
  rw [if_pos hsn]
  try dsimp only
  rw [hms]
  try dsimp only
  cases isAttr <;> simp [List.find?_cons]

theorem linkToMorph_none_untouched (ns : List CnlNode) (sourceId recId : String)
    (isAttr b : Bool) (sn : CnlNode) (bm : Morph) (rest : List Morph)
    (hfs : ns.find? (fun n => n.id = sourceId) = some sn)
    (hms : sn.morphs = bm :: rest)
    (nid mid' : String) (h : nid ≠ sourceId ∨ mid' ≠ bm.morph_id) :
    morphRecIds b (linkToMorph ns sourceId none recId isAttr).1 nid mid' =
      morphRecIds b ns nid mid' := by
  unfold linkToMorph
  rw [hfs]
  try dsimp only
  rw [hms]
  try dsimp only
  unfold morphRecIds
  rw [find?_updateNodeList]
  case hf => intro n; rfl
  cases hfn : ns.find? (fun n => n.id = nid) with
  | none => rfl
  | some n =>
      have hnid : n.id = nid := by simpa using List.find?_some hfn
      simp only [Option.map_some']
      by_cases hns : n.id = sourceId
      · have hmid' : mid' ≠ bm.morph_id := by
          rcases h with h | h
          · exact absurd (hnid ▸ hns) h
          · exact h
        have heq : nid = sourceId := hnid ▸ hns
        have hnsn : n = sn := by
          rw [heq] at hfn
          rw [hfn] at hfs
          exact Option.some.inj hfs
        rw [if_pos hns]
        try dsimp only
        rw [hnsn, hms]
        try dsimp only
        have hhd : ∀ m : Morph,
            ((if isAttr = true then
                { m with attributeNode_ids := m.attributeNode_ids ++ [recId] }
              else
                { m with relationNode_ids := m.relationNode_ids ++ [recId] }) :
              Morph).morph_id = m.morph_id := by
          intro m
          by_cases hy : isAttr = true <;> simp [hy]
        have hne : ¬ ((if isAttr = true then
              { bm with attributeNode_ids := bm.attributeNode_ids ++ [recId] }
            else
              { bm with relationNode_ids := bm.relationNode_ids ++ [recId] }) :
            Morph).morph_id = mid' := by
          rw [hhd]
          exact fun hx => hmid' hx.symm
        have hne2 : ¬ bm.morph_id = mid' := fun hx => hmid' hx.symm
        simp only [List.find?_cons, decide_eq_false hne, decide_eq_false hne2]
      · rw [if_neg hns]

end GraphAssembly

/-! ## The claims -/

/-- C1: the enabling test of the engine ignores arc weights.  On the
weight-2 arc of Example 2 with one token on `x`, `isTransitionEnabled`
answers true although the weight-summing test of the specification requires
two tokens.  The code checks `tokens >= 1` per input place and never reads
`edge.weight`. -/
theorem C1_enabling_ignores_arc_weights :
    PetriNet.isTransitionEnabled exPetriGraph "a" (fun p => if p = "x" then 1 else 0) = true
    ∧ ¬ specWeightedEnabled exPetriGraph "a" (fun p => if p = "x" then 1 else 0) := by
  constructor
  · with_unfolding_all rfl
  · exact of_decide_eq_false (by with_unfolding_all rfl)

/-- C2: firing subtracts one token per input arc and adds one per output
arc, not the arc weight.  On Example 2 with two tokens on `x` the transition
is enabled, and firing leaves `x` at 1 (the claim expects 0) and puts `y`
at 1. -/
theorem C2_fire_decrements_one_per_arc :
    PetriNet.isTransitionEnabled exPetriGraph "a" (fun p => if p = "x" then 2 else 0) = true
    ∧ PetriNet.fireTransition exPetriGraph "a" (fun p => if p = "x" then 2 else 0) "x" = 1
    ∧ PetriNet.fireTransition exPetriGraph "a" (fun p => if p = "x" then 2 else 0) "y" = 1 := by
  refine ⟨?_, ?_, ?_⟩ <;> with_unfolding_all rfl

/-- C3: a marking with a negative token count is reachable.  With two
parallel unit arcs from `t` into `x` and one initial token, `t` is enabled
(the test asks only for one token per distinct place check) and firing
decrements `x` once per arc, reaching `x = -1`. -/
theorem C3_reachable_negative_marking :
    ∃ m : PetriNet.Marking, PetriNet.Reachable exParallelGraph 1 m ∧ m "x" < 0 := by
  refine ⟨PetriNet.fireTransition exParallelGraph "t"
      (PetriNet.initialMarking exParallelGraph .petriNet 1),
    PetriNet.Reachable.fire "t" PetriNet.Reachable.init, ?_⟩
  have h : PetriNet.fireTransition exParallelGraph "t"
      (PetriNet.initialMarking exParallelGraph .petriNet 1) "x" = -1 := by
    with_unfolding_all rfl
  rw [h]
  norm_num

/-- C4: firing a transition that is not enabled returns the marking
unchanged — `fireTransition` checks `isTransitionEnabled` first and
returns the previous marking on failure, so no partial update happens. -/
theorem C4_disabled_fire_is_noop (g : CnlGraphData) (t : String) (m : PetriNet.Marking)
    (h : PetriNet.isTransitionEnabled g t m = false) :
    PetriNet.fireTransition g t m = m := by
  unfold PetriNet.fireTransition
  rw [h]
  simp

/-- C4 witness: the transition of Example 2 is disabled on the empty marking
and firing it is the identity. -/
theorem C4_disabled_fire_is_noop_witness :
    PetriNet.isTransitionEnabled exPetriGraph "a" (fun _ => 0) = false
    ∧ PetriNet.fireTransition exPetriGraph "a" (fun _ => 0) = (fun _ => 0) :=
  ⟨by with_unfolding_all rfl,
   C4_disabled_fire_is_noop exPetriGraph "a" (fun _ => 0) (by with_unfolding_all rfl)⟩

/-- C5 counterexample: the accounting input does not run any balance
engine.  Its graph mode is concept-map (only the role `Transition` selects
the Petri engine, `Transaction` does not), and the marking initialisation
outside Petri mode is the empty map, so no place ever holds a balance. -/
theorem C5_accounting_counterexample :
    PetriNet.graphMode exAccountingGraph exAccountingOps = PetriNet.GraphMode.conceptMap
    ∧ (∀ p, PetriNet.initialMarking exAccountingGraph
        (PetriNet.graphMode exAccountingGraph exAccountingOps) 1 p = 0) := by
  have hmode : PetriNet.graphMode exAccountingGraph exAccountingOps =
      PetriNet.GraphMode.conceptMap := by with_unfolding_all rfl
  refine ⟨hmode, fun p => ?_⟩
  rw [hmode]
  unfold PetriNet.initialMarking
  simp

/-- C5 (amended): the accounting vocabulary is pure syntax sugar.  `<debit>`
maps to a `has post_state` edge and `<credit>` to a `has prior_state` edge,
each keeping its numeric weight (50); `balance: 1000;` stays a string-valued
attribute; the roles are kept verbatim and the graph renders as a concept
map, with no initialization from `balance`, no auto-firing and no balance
arithmetic. -/
theorem C5_accounting_is_concept_map :
    PetriNet.graphMode exAccountingGraph exAccountingOps = PetriNet.GraphMode.conceptMap
    ∧ exAccountingGraph.nodes.map (fun n => (n.id, n.role)) =
        [("cash", "Asset"), ("buy", "Transaction"), ("office", "Account")]
    ∧ exAccountingGraph.edges.map (fun e => (e.source_id, e.target_id, e.name, e.weight)) =
        [("buy", "office", "has post_state", (50 : Rat)),
         ("buy", "cash", "has prior_state", (50 : Rat))]
    ∧ exAccountingGraph.attributes.map (fun a => (a.source_id, a.name, a.value)) =
        [("cash", "balance", "1000")] := by
  refine ⟨?_, ?_, ?_, ?_⟩ <;> with_unfolding_all rfl

/-- C6: morph isolation.  Linking a record to a named morph changes no
other (node, morph) visibility list and appends exactly the record id to
the targeted morph; linking without a morph id goes to the head (basic)
morph only.  On Example 1, the water node gets two morphs whose attribute
lists each hold exactly their own `state` attribute. -/
theorem C6_morph_isolation :
    (∀ (ns : List CnlNode) (sourceId mid recId : String) (isAttr b : Bool)
        (nid mid' : String), (nid ≠ sourceId ∨ mid' ≠ mid) →
        GraphAssembly.morphRecIds b
            (GraphAssembly.linkToMorph ns sourceId (some mid) recId isAttr).1 nid mid' =
          GraphAssembly.morphRecIds b ns nid mid')
    ∧ (∀ (ns : List CnlNode) (sourceId mid recId : String) (isAttr : Bool)
        (sn : CnlNode) (mo : Morph),
        ns.find? (fun n => n.id = sourceId) = some sn →
        sn.morphs.find? (fun m => m.morph_id = mid) = some mo →
        GraphAssembly.morphRecIds isAttr
            (GraphAssembly.linkToMorph ns sourceId (some mid) recId isAttr).1 sourceId mid =
          GraphAssembly.morphRecIds isAttr ns sourceId mid ++ [recId])
    ∧ (∀ (ns : List CnlNode) (sourceId recId : String) (isAttr : Bool)
        (sn : CnlNode) (bm : Morph) (rest : List Morph),
        ns.find? (fun n => n.id = sourceId) = some sn →
        sn.morphs = bm :: rest →
        GraphAssembly.morphRecIds isAttr
            (GraphAssembly.linkToMorph ns sourceId none recId isAttr).1 sourceId bm.morph_id =
          GraphAssembly.morphRecIds isAttr ns sourceId bm.morph_id ++ [recId])
    ∧ (∀ (ns : List CnlNode) (sourceId recId : String) (isAttr b : Bool)
        (sn : CnlNode) (bm : Morph) (rest : List Morph),
        ns.find? (fun n => n.id = sourceId) = some sn →
        sn.morphs = bm :: rest →
        ∀ (nid mid' : String), (nid ≠ sourceId ∨ mid' ≠ bm.morph_id) →
        GraphAssembly.morphRecIds b
            (GraphAssembly.linkToMorph ns sourceId none recId isAttr).1 nid mid' =
          GraphAssembly.morphRecIds b ns nid mid')
    ∧ exWaterGraph.nodes.map (fun n => n.id) = ["water"]
    ∧ exWaterGraph.nodes.map
        (fun n => n.morphs.map (fun m => (m.morph_id, m.name, m.attributeNode_ids))) =
        [[("water_morph_basic_1", "basic", ["attr_water_state_47b452"]),
          ("water_morph_ice_1", "Ice", ["attr_water_state_09af5d"])]]
    ∧ exWaterGraph.attributes.map (fun a => (a.id, a.source_id, a.name, a.value, a.morph_ids)) =
        [("attr_water_state_47b452", "water", "state", "\"liquid\"", ["water_morph_basic_1"]),
         ("attr_water_state_09af5d", "water", "state", "\"solid\"", ["water_morph_ice_1"])] := by
  refine ⟨GraphAssembly.linkToMorph_some_untouched, ?_, ?_, ?_, ?_, ?_, ?_⟩
  · intro ns sourceId mid recId isAttr sn mo hfs hfm
    exact GraphAssembly.linkToMorph_some_targeted ns sourceId mid recId isAttr sn mo hfs hfm
  · intro ns sourceId recId isAttr sn bm rest hfs hms
    exact GraphAssembly.linkToMorph_none_basic ns sourceId recId isAttr sn bm rest hfs hms
  · intro ns sourceId recId isAttr b sn bm rest hfs hms nid mid' h
    exact GraphAssembly.linkToMorph_none_untouched ns sourceId recId isAttr b sn bm rest
      hfs hms nid mid' h
  · with_unfolding_all rfl
  · with_unfolding_all rfl
  · with_unfolding_all rfl

/-- C6 witness: linking a record to the Ice morph of the water node leaves
the basic morph of a foreign node id untouched. -/
theorem C6_morph_isolation_witness :
    (("co2" : String) ≠ "water" ∨ ("m0" : String) ≠ "x0")
    ∧ GraphAssembly.morphRecIds true
        (GraphAssembly.linkToMorph exWaterGraph.nodes "water" (some "x0") "r0" true).1
          "co2" "m0" =
      GraphAssembly.morphRecIds true exWaterGraph.nodes "co2" "m0" :=
  ⟨Or.inl (by decide),
   C6_morph_isolation.1 exWaterGraph.nodes "water" "x0" "r0" true true "co2" "m0"
     (Or.inl (by decide))⟩

/-- C7: the weighted relation line of the round trip.  `<has prior_state>
6 CO2;` yields exactly one edge with weight 6 and target `co2`, stamped on
the basic morph; without the weight token the weight defaults to 1. -/
theorem C7_relation_weight_edge :
    exWeightedRelGraph.edges.map
        (fun e => (e.id, e.source_id, e.target_id, e.name, e.weight, e.morph_ids)) =
      [("rel_p_has_prior_state_co2", "p", "co2", "has prior_state", (6 : Rat),
        ["p_morph_basic_1"])]
    ∧ exDefaultRelGraph.edges.map
        (fun e => (e.id, e.source_id, e.target_id, e.name, e.weight, e.morph_ids)) =
      [("rel_p_has_prior_state_co2", "p", "co2", "has prior_state", (1 : Rat),
        ["p_morph_basic_1"])] := by
  exact ⟨by with_unfolding_all rfl, by with_unfolding_all rfl⟩

/-- C8: parsing and assembly do not depend on the module-level counters.
`getOperationsFromCnl` resets the morph counter to zero before processing
(returning early only on empty input, without touching it), and
`operationsToGraph` resets the basic-morph counter on entry, so two runs on
the same text give identical operations and graphs. -/
theorem C8_counter_reset_determinism :
    (∀ (text : String) (c1 c2 : Nat),
      (CnlParse.getOperationsFromCnlSt c1 text).1 = (CnlParse.getOperationsFromCnlSt c2 text).1)
    ∧ (∀ (ops : List CnlOp) (d1 d2 : Nat),
      GraphAssembly.operationsToGraphSt d1 ops = GraphAssembly.operationsToGraphSt d2 ops) := by
  constructor
  · intro text c1 c2
    unfold CnlParse.getOperationsFromCnlSt
    by_cases h : text = "" <;> simp [h]
  · intro ops d1 d2
    rfl

/-- C9: the ledger example and the engine shape.  `@account Cash 100.00`
with the coffee row yields Cash balance 96 and the food category at total
-4, count 1; the rows are a sequential fold over the transactions (the
running balance reading `rowsSpec`); `parseLedger` sorts its transactions
by date with a stable insertion (same-date rows keep file order); and a
transaction without tags books under the sentinel `uncategorized`
category. -/
theorem C9_ledger_example_and_engine :
    ((Ledger.computeLedger (Ledger.parseLedger exLedgerText)).accountBalances.map
        (fun ab => (ab.name, ab.balance)) = [("Cash", (96 : Rat))])
    ∧ ((Ledger.computeLedger (Ledger.parseLedger exLedgerText)).categorySummaries.map
        (fun cs => (cs.category, cs.total, cs.count)) = [("food", (-4 : Rat), 1)])
    ∧ ((Ledger.computeLedger (Ledger.parseLedger exLedgerText)).rows.map
        (fun r => (r.date, r.amount, r.runningBalance)) =
        [("2024-01-01", (-4 : Rat), (96 : Rat))])
    ∧ (∀ data : Ledger.LedgerData, (Ledger.computeLedger data).rows =
        Ledger.rowsSpec (Ledger.initialBalances data.accounts) data.transactions)
    ∧ (∀ code : String, (Ledger.parseLedger code).transactions =
        Ledger.stableSortByDate (Ledger.parseLedgerRawTransactions code))
    ∧ (∀ l : List Ledger.Transaction,
        (Ledger.stableSortByDate l).Pairwise (fun a b => a.date ≤ b.date))
    ∧ (∀ (l : List Ledger.Transaction) (d : String),
        (Ledger.stableSortByDate l).filter (fun t => t.date = d) =
          l.filter (fun t => t.date = d))
    ∧ (∀ tx : Ledger.Transaction, "uncategorized" ∉ tx.categories →
        Ledger.catCount "uncategorized" tx = if tx.categories.isEmpty then 1 else 0)
    ∧ (∀ txs : List Ledger.Transaction, (∀ tx ∈ txs, "uncategorized" ∉ tx.categories) →
        Ledger.jsGet (Ledger.categoryTotals txs) "uncategorized" =
          if 0 < (txs.map (Ledger.catCount "uncategorized")).sum then
            some ((((txs.filter (fun tx => tx.categories.isEmpty)).map
                (fun tx => tx.amount)).sum),
              (txs.filter (fun tx => tx.categories.isEmpty)).length)
          else none) := by
  refine ⟨by with_unfolding_all rfl, by with_unfolding_all rfl, by with_unfolding_all rfl,
    fun data => (Ledger.computeLedger_spec data).1,
    fun code => rfl,
    Ledger.pairwise_stableSortByDate,
    Ledger.filter_stableSortByDate,
    Ledger.catCount_sentinel,
    fun txs h => ?_⟩
  rw [Ledger.categoryTotals_get, Ledger.contribution_sentinel txs h]

/-- C9 witness: the coffee transaction carries the tag `food`, not the
sentinel, and books one count under `food`, so the sentinel count reading
applies to it with the hypothesis discharged. -/
theorem C9_ledger_example_and_engine_witness :
    ("uncategorized" ∉ (["food"] : List String))
    ∧ Ledger.catCount "uncategorized"
        ⟨"2024-01-01", "Coffee", -4, "Cash", none, ["food"]⟩ =
      if (⟨"2024-01-01", "Coffee", -4, "Cash", none, ["food"]⟩ :
          Ledger.Transaction).categories.isEmpty then 1 else 0 :=
  ⟨by decide,
   C9_ledger_example_and_engine.2.2.2.2.2.2.2.1
     ⟨"2024-01-01", "Coffee", -4, "Cash", none, ["food"]⟩ (by decide)⟩

/-- C10 counterexample: a self transfer (source account equal to the
target) refutes the reading that the running balance is the source balance
after the whole transaction.  The row reports 5 — the balance after the
credit but before the target-side debit — while the account ends at 0. -/
theorem C10_self_transfer_counterexample :
    (Ledger.computeLedger exSelfTransferData).rows.map (fun r => r.runningBalance) =
      [(5 : Rat)]
    ∧ (Ledger.computeLedger exSelfTransferData).accountBalances.map
        (fun ab => (ab.name, ab.balance)) = [("A", (0 : Rat))] :=
  ⟨by with_unfolding_all rfl, by with_unfolding_all rfl⟩

/-- C10 (amended): per-account semantics of one transaction.  Every
transaction adds its signed amount to its source account (auto-created at
zero on first use, so an absent source reads the bare amount), a transfer
target additionally loses the same signed amount, the final balances are
the fold of these steps over the declared accounts, and the reported
running balance is the source balance immediately after the source-side
credit — before the target-side debit of the same transaction. -/
theorem C10_transfer_semantics :
    (∀ (b : List (String × Rat)) (tx : Ledger.Transaction) (a : String),
      Ledger.jsGetD (Ledger.applyTx b tx) a 0 =
        Ledger.jsGetD b a 0 + (if tx.account = a then tx.amount else 0) -
          (if tx.targetAccount = some a then tx.amount else 0))
    ∧ (∀ (b : List (String × Rat)) (tx : Ledger.Transaction),
        (Ledger.txStep b tx).1 = Ledger.jsGetD b tx.account 0 + tx.amount)
    ∧ (∀ tx : Ledger.Transaction, (Ledger.txStep [] tx).1 = tx.amount)
    ∧ (∀ data : Ledger.LedgerData, (Ledger.computeLedger data).accountBalances =
        (data.transactions.foldl Ledger.applyTx
          (Ledger.initialBalances data.accounts)).map (fun p => ⟨p.1, p.2⟩)) := by
  refine ⟨Ledger.applyTx_pointwise, Ledger.txStep_fst, fun tx => ?_,
    fun data => (Ledger.computeLedger_spec data).2⟩
  rw [Ledger.txStep_fst]
  show Ledger.jsGetD [] tx.account 0 + tx.amount = tx.amount
  simp [Ledger.jsGetD, Ledger.jsGet]
